import Mathlib

/-!
# Verification of the BoB POS tracker reconciliation engine

Shallow embedding of the TypeScript source of the Bank-of-Bhutan POS
tracker.  JavaScript strings become Lean `String`s, arrays become `List`s,
records become structures, and the SQLite inventory/issuance store becomes
an explicit state structure that every store operation threads through.
JavaScript number amounts (`parseFloat` results) are modelled as rationals.

`String.prototype.trim`, `toLowerCase` and `toUpperCase` (and SQL
`TRIM`/`UPPER`) are modelled charwise over the ASCII range, which is the
range the identifiers in this application use.
-/

namespace BobPos

/-- Whitespace test used by the model of `String.prototype.trim`
(ASCII subset of the JS WhiteSpace class). -/
def jsIsWs (c : Char) : Bool :=
  c = ' ' || c = '\t' || c = '\n' || c = '\r'

/-- Per-character model of `toLowerCase` (ASCII range). -/
def jsCharToLower (c : Char) : Char :=
  match c with
  | 'A' => 'a'
  | 'B' => 'b'
  | 'C' => 'c'
  | 'D' => 'd'
  | 'E' => 'e'
  | 'F' => 'f'
  | 'G' => 'g'
  | 'H' => 'h'
  | 'I' => 'i'
  | 'J' => 'j'
  | 'K' => 'k'
  | 'L' => 'l'
  | 'M' => 'm'
  | 'N' => 'n'
  | 'O' => 'o'
  | 'P' => 'p'
  | 'Q' => 'q'
  | 'R' => 'r'
  | 'S' => 's'
  | 'T' => 't'
  | 'U' => 'u'
  | 'V' => 'v'
  | 'W' => 'w'
  | 'X' => 'x'
  | 'Y' => 'y'
  | 'Z' => 'z'
  | d => d

/-- Per-character model of `toUpperCase` / SQL `UPPER` (ASCII range). -/
def jsCharToUpper (c : Char) : Char :=
  match c with
  | 'a' => 'A'
  | 'b' => 'B'
  | 'c' => 'C'
  | 'd' => 'D'
  | 'e' => 'E'
  | 'f' => 'F'
  | 'g' => 'G'
  | 'h' => 'H'
  | 'i' => 'I'
  | 'j' => 'J'
  | 'k' => 'K'
  | 'l' => 'L'
  | 'm' => 'M'
  | 'n' => 'N'
  | 'o' => 'O'
  | 'p' => 'P'
  | 'q' => 'Q'
  | 'r' => 'R'
  | 's' => 'S'
  | 't' => 'T'
  | 'u' => 'U'
  | 'v' => 'V'
  | 'w' => 'W'
  | 'x' => 'X'
  | 'y' => 'Y'
  | 'z' => 'Z'
  | d => d

/-- Model of `String.prototype.toLowerCase`. -/
def jsToLower (s : String) : String :=
  ⟨s.data.map jsCharToLower⟩

/-- Model of `String.prototype.toUpperCase` / SQL `UPPER`. -/
def jsToUpper (s : String) : String :=
  ⟨s.data.map jsCharToUpper⟩

/-- Model of `String.prototype.trim` / SQL `TRIM`: drop whitespace from
both ends. -/
def jsTrim (s : String) : String :=
  ⟨((s.data.dropWhile jsIsWs).reverse.dropWhile jsIsWs).reverse⟩

/-- Model of `.replace(/^0+/, '')`: remove every leading `'0'`. -/
def stripLeadingZeros (s : String) : String :=
  ⟨s.data.dropWhile (fun c => c == '0')⟩

/-- `normalizeMid` on a string input, as defined (repeatedly, inline) in
the source: `String(id).trim().toLowerCase().replace(/^0+/, '')`. -/
def normMid (s : String) : String :=
  stripLeadingZeros (jsToLower (jsTrim s))

/-- `normalizeMid` on a possibly null/absent input:
`String(id || '')` turns `null`/`undefined` into the empty string first. -/
def normalizeMid (raw : Option String) : String :=
  normMid (raw.getD "")

/-! ### Character-level facts -/

theorem jsIsWs_jsCharToLower (c : Char) : jsIsWs (jsCharToLower c) = jsIsWs c := by
  unfold jsCharToLower
  split <;> rfl

/-! ### `jsTrim` structure -/

theorem jsTrim_data (s : String) :
    (jsTrim s).data = ((s.data.dropWhile jsIsWs).reverse.dropWhile jsIsWs).reverse := rfl

theorem dropWhile_eq_self_of_head (p : α → Bool) (l : List α)
    (h : ∀ a, l.head? = some a → p a = false) : l.dropWhile p = l := by
  cases l with
  | nil => rfl
  | cons a l =>
    have ha : p a = false := h a rfl
    simp [List.dropWhile_cons, ha]

/-- The head of `dropWhile p l` does not satisfy `p`. -/
theorem head?_dropWhile_false (p : α → Bool) (l : List α) :
    ∀ a, (l.dropWhile p).head? = some a → p a = false := by
  intro a ha
  have h := List.head?_dropWhile_not p l
  rw [ha] at h
  exact h

/-- `trimList` is the list form of `jsTrim`. -/
def trimList (l : List Char) : List Char :=
  ((l.dropWhile jsIsWs).reverse.dropWhile jsIsWs).reverse

theorem trimList_head? (l : List Char) :
    ∀ a, (trimList l).head? = some a → jsIsWs a = false := by
  intro a ha
  -- the trimmed list is a reversed suffix of `dropWhile jsIsWs l`,
  -- i.e. a prefix of it, so its head is the head of `dropWhile jsIsWs l`
  have hsuf := List.dropWhile_suffix (l := (l.dropWhile jsIsWs).reverse) jsIsWs
  obtain ⟨t, ht⟩ := hsuf
  have hpre : trimList l ++ t.reverse = l.dropWhile jsIsWs := by
    have := congrArg List.reverse ht
    simpa [trimList, List.reverse_append] using this
  have : (l.dropWhile jsIsWs).head? = some a := by
    rw [← hpre]
    cases hh : trimList l with
    | nil => rw [hh] at ha; simp at ha
    | cons b bs =>
      rw [hh] at ha
      simp at ha
      simp [hh, ha]
  exact head?_dropWhile_false jsIsWs l a this

theorem trimList_getLast? (l : List Char) :
    ∀ a, (trimList l).getLast? = some a → jsIsWs a = false := by
  intro a ha
  have : ((l.dropWhile jsIsWs).reverse.dropWhile jsIsWs).head? = some a := by
    have := List.getLast?_reverse ((l.dropWhile jsIsWs).reverse.dropWhile jsIsWs)
    rw [← this]
    simpa [trimList] using ha
  exact head?_dropWhile_false jsIsWs _ a this

theorem trimList_trimmed_eq (l : List Char)
    (h1 : ∀ a, l.head? = some a → jsIsWs a = false)
    (h2 : ∀ a, l.getLast? = some a → jsIsWs a = false) : trimList l = l := by
  unfold trimList
  rw [dropWhile_eq_self_of_head _ _ h1]
  rw [dropWhile_eq_self_of_head _ _ (by
    intro a ha
    rw [List.head?_reverse] at ha
    exact h2 a ha)]
  exact List.reverse_reverse l

/-- `.trim()` is idempotent. -/
theorem jsTrim_jsTrim (s : String) : jsTrim (jsTrim s) = jsTrim s := by
  show String.mk (trimList (trimList s.data)) = String.mk (trimList s.data)
  rw [trimList_trimmed_eq (trimList s.data) (trimList_head? s.data) (trimList_getLast? s.data)]

theorem trimList_map_lower (l : List Char) :
    trimList (l.map jsCharToLower) = (trimList l).map jsCharToLower := by
  have hcomp : (jsIsWs ∘ jsCharToLower) = jsIsWs := funext jsIsWs_jsCharToLower
  unfold trimList
  rw [List.dropWhile_map, hcomp, ← List.map_reverse, List.dropWhile_map, hcomp,
    ← List.map_reverse]

/-- `.trim()` commutes with `.toLowerCase()`. -/
theorem jsTrim_jsToLower (s : String) : jsTrim (jsToLower s) = jsToLower (jsTrim s) :=
  congrArg String.mk (trimList_map_lower s.data)

/-! ## C6: the identifier normalizer -/

/-- C6 counterexample: the source strips every leading zero, so an input
composed entirely of zeros normalizes to the empty string — refuting the
clause that at least one digit is always preserved. -/
theorem normalizeMid_all_zeros : normalizeMid (some "000") = "" := by decide

/-- C6 (amended): `normalizeMid` trims, lower-cases and strips all leading
`'0'` characters (the result never starts with `'0'`, and an all-zero
input becomes empty); `null`/absent input normalizes to the empty
string. -/
theorem normalizeMid_spec (raw : String) :
    normalizeMid none = "" ∧
    normalizeMid (some raw) = normMid raw ∧
    (∃ k, (jsToLower (jsTrim raw)).data
        = List.replicate k '0' ++ (normMid raw).data) ∧
    (∀ c, (normMid raw).data.head? = some c → c ≠ '0') := by
  refine ⟨rfl, rfl, ?_, ?_⟩
  · refine ⟨((jsToLower (jsTrim raw)).data.takeWhile (fun c => c == '0')).length, ?_⟩
    have hrepl : (jsToLower (jsTrim raw)).data.takeWhile (fun c => c == '0')
        = List.replicate ((jsToLower (jsTrim raw)).data.takeWhile (fun c => c == '0')).length '0' := by
      apply List.eq_replicate_of_mem
      intro b hb
      have hpb := List.mem_takeWhile_imp hb
      simpa using hpb
    calc (jsToLower (jsTrim raw)).data
        = (jsToLower (jsTrim raw)).data.takeWhile (fun c => c == '0')
          ++ (jsToLower (jsTrim raw)).data.dropWhile (fun c => c == '0') :=
          (List.takeWhile_append_dropWhile _ _).symm
      _ = _ := by rw [← hrepl]; rfl
  · intro c hc
    have := head?_dropWhile_false (fun c => c == '0') (jsToLower (jsTrim raw)).data c hc
    simpa using this

/-! ## The persistent inventory/issuance store

Model of the two SQLite tables the stock endpoints read and write.  The
`id`, timestamp (`created_at` / `updated_at`) and `model`/`batch_name`/
`procured_date` columns are not consulted by any of the verified logic and
are omitted. -/

structure Terminal where
  serial_number : String
  status : String
  deriving DecidableEq, Repr

structure Issuance where
  serial_number : String
  mid : String
  merchant_name : String
  tid : String
  issue_date : String
  return_date : Option String
  issued_by : String
  notes : String
  deriving DecidableEq, Repr

structure StockDb where
  terminals : List Terminal
  issuances : List Issuance
  deriving DecidableEq, Repr

/-- One element of the `assignments` array posted to
`/api/stock/sync-assignments`. -/
structure Assignment where
  serial : String
  mid : String
  merchantName : String
  tid : String
  deriving DecidableEq, Repr

/-- `UPPER(TRIM(x))`, the case/whitespace-insensitive serial key used by
the sync lookup. -/
def upperTrim (s : String) : String :=
  jsToUpper (jsTrim s)

/-- `SELECT serial_number, status FROM terminals
WHERE UPPER(TRIM(serial_number)) = UPPER(TRIM(?))` (first match). -/
def findTerminal (db : StockDb) (serial : String) : Option Terminal :=
  db.terminals.find? (fun t => upperTrim t.serial_number == upperTrim serial)

/-- `SELECT id FROM issuances WHERE serial_number = ? AND mid = ? AND
tid = ? AND return_date IS NULL` is non-empty. -/
def hasOpenIssuance (db : StockDb) (dbSerial mid tid : String) : Bool :=
  db.issuances.any (fun i =>
    i.serial_number == dbSerial && i.mid == mid && i.tid == tid && i.return_date.isNone)

/-- `UPDATE terminals SET status = 'ISSUED', updated_at = ...
WHERE serial_number = ?`. -/
def setIssued (db : StockDb) (dbSerial : String) : StockDb :=
  { db with
    terminals := db.terminals.map (fun t =>
      if t.serial_number == dbSerial then { t with status := "ISSUED" } else t) }

/-- `UPDATE issuances SET return_date = DATE('now'), notes = notes || ...
WHERE serial_number = ? AND return_date IS NULL`. -/
def closeOpenIssuances (db : StockDb) (dbSerial today : String) : StockDb :=
  { db with
    issuances := db.issuances.map (fun i =>
      if i.serial_number == dbSerial && i.return_date.isNone then
        { i with return_date := some today, notes := i.notes ++ " | Auto-closed by POS Sync" }
      else i) }

/-- `INSERT INTO issuances (serial_number, mid, merchant_name, tid,
issue_date, issued_by, notes) VALUES (?, ?, ?, ?, DATE('now'),
'System Sync', 'Imported from Master POS List')`. -/
def insertSyncIssuance (db : StockDb) (dbSerial mid merchantName tid today : String) : StockDb :=
  { db with
    issuances := db.issuances ++
      [{ serial_number := dbSerial, mid := mid, merchant_name := merchantName, tid := tid,
         issue_date := today, return_date := none, issued_by := "System Sync",
         notes := "Imported from Master POS List" }] }

inductive Outcome where
  | updated
  | ignored
  | notFound
  deriving DecidableEq, Repr

/-- One iteration of the loop inside `syncTransaction`: the per-event
processing of the Stock Reconciliation Transaction.  `today` stands for
SQLite `DATE('now')`. -/
def syncEvent (today : String) (db : StockDb) (a : Assignment) : StockDb × Outcome :=
  if a.serial = "" then (db, .ignored)
  else
    match findTerminal db a.serial with
    | none => (db, .notFound)
    | some t =>
      if hasOpenIssuance db t.serial_number a.mid a.tid then (db, .ignored)
      else
        (insertSyncIssuance
          (closeOpenIssuances (setIssued db t.serial_number) t.serial_number today)
          t.serial_number a.mid a.merchantName a.tid today, .updated)

/-- The whole `syncTransaction` loop, returning the final store and the
per-event outcome list (the `updated`/`ignored`/`notFound` counters of the
source are the counts of the respective outcomes in this list). -/
def syncBatch (today : String) : StockDb → List Assignment → StockDb × List Outcome
  | db, [] => (db, [])
  | db, a :: rest =>
    let r := syncEvent today db a
    let s := syncBatch today r.1 rest
    (s.1, r.2 :: s.2)

/-! ### Auxiliary facts about the sync transaction -/

/-- The canonical stored serial the sync lookup resolves an incoming
serial to (the `dbSerial` of the source). -/
def dbSerialOf (db : StockDb) (serial : String) : Option String :=
  (findTerminal db serial).map Terminal.serial_number

/-- What a sync event answers when it performs no mutation: `ignored` for
an empty serial, `notFound` for an unknown serial, `ignored` otherwise. -/
def classify (db : StockDb) (a : Assignment) : Outcome :=
  if a.serial = "" then .ignored
  else if (findTerminal db a.serial).isNone then .notFound
  else .ignored

/-- Turn a first-run outcome into the matching second-run outcome. -/
def collapseUpdated (o : Outcome) : Outcome :=
  if o = .updated then .ignored else o

/-- The consistency condition on a batch under which reconciliation is
idempotent: no serial (compared case/whitespace-insensitively) appears
with two different `(mid, tid)` pairs. -/
def consistentBatch (batch : List Assignment) : Prop :=
  ∀ a ∈ batch, ∀ b ∈ batch, upperTrim a.serial = upperTrim b.serial →
    a.mid = b.mid ∧ a.tid = b.tid

instance (batch : List Assignment) : Decidable (consistentBatch batch) := by
  unfold consistentBatch
  infer_instance

theorem find?_map_comm {α : Type} (f : α → α) (p : α → Bool) (hf : ∀ x, p (f x) = p x) :
    ∀ l : List α, (l.map f).find? p = (l.find? p).map f := by
  intro l
  induction l with
  | nil => rfl
  | cons a l ih =>
    simp only [List.map_cons, List.find?_cons]
    rw [hf a]
    cases h : p a <;> simp [h, ih]

theorem issuedUpd_serial (d : String) (t : Terminal) :
    (if t.serial_number == d then { t with status := "ISSUED" } else t).serial_number
      = t.serial_number := by
  split <;> rfl

theorem dbSerialOf_setIssued (db : StockDb) (d s : String) :
    dbSerialOf (setIssued db d) s = dbSerialOf db s := by
  unfold dbSerialOf findTerminal setIssued
  rw [find?_map_comm _ _ (fun t => by rw [issuedUpd_serial])]
  cases h : db.terminals.find? (fun t => upperTrim t.serial_number == upperTrim s) <;>
    simp [h]
  split <;> rfl

theorem dbSerialOf_syncEvent (today : String) (db : StockDb) (e : Assignment) (s : String) :
    dbSerialOf (syncEvent today db e).1 s = dbSerialOf db s := by
  unfold syncEvent
  split
  · rfl
  · split
    · rfl
    · split
      · rfl
      · show dbSerialOf (insertSyncIssuance (closeOpenIssuances (setIssued db _) _ _) _ _ _ _ _) s
            = dbSerialOf db s
        rw [show ∀ (d₀ : StockDb) (a b c dd ee ff gg : String),
              dbSerialOf (insertSyncIssuance (closeOpenIssuances d₀ a b) c dd ee ff gg) s
                = dbSerialOf d₀ s from fun _ _ _ _ _ _ _ _ => rfl]
        exact dbSerialOf_setIssued db _ s

theorem dbSerialOf_syncBatch (today : String) :
    ∀ (batch : List Assignment) (db : StockDb) (s : String),
    dbSerialOf (syncBatch today db batch).1 s = dbSerialOf db s := by
  intro batch
  induction batch with
  | nil => intro db s; rfl
  | cons e rest ih =>
    intro db s
    show dbSerialOf (syncBatch today (syncEvent today db e).1 rest).1 s = dbSerialOf db s
    rw [ih, dbSerialOf_syncEvent]

theorem dbSerialOf_eq_some (db : StockDb) (x s : String) :
    dbSerialOf db x = some s ↔
      ∃ tm, findTerminal db x = some tm ∧ tm.serial_number = s := by
  unfold dbSerialOf
  cases h : findTerminal db x <;> simp [h]

theorem upperTrim_of_find (db : StockDb) (x : String) (tm : Terminal)
    (h : findTerminal db x = some tm) : upperTrim tm.serial_number = upperTrim x := by
  have hp := List.find?_some h
  simpa using hp

theorem upperTrim_of_dbSerialOf (db : StockDb) (x s : String)
    (h : dbSerialOf db x = some s) : upperTrim s = upperTrim x := by
  obtain ⟨tm, htm, hs⟩ := (dbSerialOf_eq_some db x s).mp h
  rw [← hs]
  exact upperTrim_of_find db x tm htm

theorem classify_congr (db1 db2 : StockDb)
    (h : ∀ x, dbSerialOf db1 x = dbSerialOf db2 x) (a : Assignment) :
    classify db1 a = classify db2 a := by
  unfold classify
  have hiso : (findTerminal db1 a.serial).isNone = (findTerminal db2 a.serial).isNone := by
    have hx := h a.serial
    unfold dbSerialOf at hx
    cases h1 : findTerminal db1 a.serial <;> cases h2 : findTerminal db2 a.serial <;>
      simp [h1, h2] at hx ⊢
  rw [hiso]

/-- An open issuance survives one sync event, provided the event does not
target the same canonical serial with a different `(mid, tid)`. -/
theorem hasOpen_syncEvent (today : String) (db : StockDb) (e : Assignment) (s m t : String)
    (hopen : hasOpenIssuance db s m t = true)
    (hside : dbSerialOf db e.serial = some s → e.mid = m ∧ e.tid = t) :
    hasOpenIssuance (syncEvent today db e).1 s m t = true := by
  unfold syncEvent
  split
  · exact hopen
  · rename_i hser
    cases hft : findTerminal db e.serial with
    | none => exact hopen
    | some tm =>
      simp only []
      split
      · exact hopen
      · rename_i hno
        by_cases hd : tm.serial_number = s
        · exfalso
          have hmt : e.mid = m ∧ e.tid = t := by
            apply hside
            rw [dbSerialOf_eq_some]
            exact ⟨tm, hft, hd⟩
          rw [hd, hmt.1, hmt.2] at hno
          exact hno hopen
        · -- the event mutates a different canonical serial
          rcases List.any_eq_true.mp hopen with ⟨i, hi, hpi⟩
          have his : i.serial_number = s := by
            have := hpi
            simp only [Bool.and_eq_true, beq_iff_eq] at this
            exact this.1.1.1
          apply List.any_eq_true.mpr
          refine ⟨i, ?_, hpi⟩
          show i ∈ (insertSyncIssuance (closeOpenIssuances (setIssued db tm.serial_number)
            tm.serial_number today) tm.serial_number e.mid e.merchantName e.tid today).issuances
          have hcl : (if i.serial_number == tm.serial_number && i.return_date.isNone then
              { i with return_date := some today,
                       notes := i.notes ++ " | Auto-closed by POS Sync" } else i) = i := by
            have : (i.serial_number == tm.serial_number) = false := by
              rw [his]
              exact beq_false_of_ne (fun hh => hd hh.symm)
            simp [this]
          show i ∈ (db.issuances.map _) ++ [_]
          apply List.mem_append_left
          rw [← hcl]
          exact List.mem_map_of_mem _ hi

/-- An open issuance survives a whole batch, provided no event targets its
canonical serial with a different `(mid, tid)`. -/
theorem hasOpen_syncBatch (today : String) :
    ∀ (batch : List Assignment) (db : StockDb) (s m t : String),
    hasOpenIssuance db s m t = true →
    (∀ e ∈ batch, dbSerialOf db e.serial = some s → e.mid = m ∧ e.tid = t) →
    hasOpenIssuance (syncBatch today db batch).1 s m t = true := by
  intro batch
  induction batch with
  | nil => intro db s m t h _; exact h
  | cons e rest ih =>
    intro db s m t h hside
    show hasOpenIssuance (syncBatch today (syncEvent today db e).1 rest).1 s m t = true
    apply ih
    · exact hasOpen_syncEvent today db e s m t h (hside e (by simp))
    · intro f hf hser
      apply hside f (by simp [hf])
      rw [← dbSerialOf_syncEvent today db e f.serial]
      exact hser

/-- After a consistent batch, every event that resolved to a stored
terminal has a matching open issuance. -/
theorem syncBatch_creates_open (today : String) :
    ∀ (batch : List Assignment) (db : StockDb), consistentBatch batch →
    ∀ e ∈ batch, e.serial ≠ "" → ∀ s, dbSerialOf db e.serial = some s →
      hasOpenIssuance (syncBatch today db batch).1 s e.mid e.tid = true := by
  intro batch
  induction batch with
  | nil => intro db _ e he; simp at he
  | cons a rest ih =>
    intro db hc e he hne s hs
    have hcrest : consistentBatch rest := by
      intro x hx y hy
      exact hc x (by simp [hx]) y (by simp [hy])
    rcases List.mem_cons.mp he with rfl | hemem
    · -- the head event itself
      obtain ⟨tm, hft, htms⟩ := (dbSerialOf_eq_some db e.serial s).mp hs
      show hasOpenIssuance (syncBatch today (syncEvent today db e).1 rest).1 s e.mid e.tid = true
      have hutrim : upperTrim s = upperTrim e.serial := upperTrim_of_dbSerialOf db e.serial s hs
      have hsidegen : ∀ db₀ : StockDb, (∀ x, dbSerialOf db₀ x = dbSerialOf db x) →
          ∀ f ∈ rest, dbSerialOf db₀ f.serial = some s → f.mid = e.mid ∧ f.tid = e.tid := by
        intro db₀ hdb₀ f hf hfs
        have hfs' : dbSerialOf db f.serial = some s := by rw [← hdb₀]; exact hfs
        have : upperTrim f.serial = upperTrim e.serial := by
          rw [← upperTrim_of_dbSerialOf db f.serial s hfs']
          exact hutrim
        have := hc f (by simp [hf]) e (by simp) this
        exact this
      by_cases hop : hasOpenIssuance db tm.serial_number e.mid e.tid = true
      · have hev : syncEvent today db e = (db, .ignored) := by
          unfold syncEvent
          rw [if_neg hne, hft]
          simp [hop]
        rw [hev]
        apply hasOpen_syncBatch today rest db s e.mid e.tid (htms ▸ hop)
        exact hsidegen db (fun _ => rfl)
      · have hev : syncEvent today db e =
            (insertSyncIssuance
              (closeOpenIssuances (setIssued db tm.serial_number) tm.serial_number today)
              tm.serial_number e.mid e.merchantName e.tid today, .updated) := by
          unfold syncEvent
          rw [if_neg hne, hft]
          simp [hop]
        rw [hev]
        apply hasOpen_syncBatch today rest _ s e.mid e.tid
        · -- the freshly inserted issuance is open and matches
          apply List.any_eq_true.mpr
          refine ⟨_, List.mem_append_right _ (List.mem_singleton.mpr rfl), ?_⟩
          simp [htms]
        · apply hsidegen
          intro x
          have : dbSerialOf (syncEvent today db e).1 x = dbSerialOf db x :=
            dbSerialOf_syncEvent today db e x
          rw [hev] at this
          exact this
    · -- an event further down the batch
      show hasOpenIssuance (syncBatch today (syncEvent today db a).1 rest).1 s e.mid e.tid = true
      apply ih (syncEvent today db a).1 hcrest e hemem hne s
      rw [dbSerialOf_syncEvent]
      exact hs

/-- A batch in which every event is a no-op leaves the store untouched and
answers with the classification outcomes. -/
theorem syncBatch_static (today : String) :
    ∀ (batch : List Assignment) (db : StockDb),
    (∀ a ∈ batch, a.serial = "" ∨ dbSerialOf db a.serial = none ∨
      ∃ s, dbSerialOf db a.serial = some s ∧ hasOpenIssuance db s a.mid a.tid = true) →
    syncBatch today db batch = (db, batch.map (classify db)) := by
  intro batch
  induction batch with
  | nil => intro db _; rfl
  | cons a rest ih =>
    intro db h
    have hev : syncEvent today db a = (db, classify db a) := by
      rcases h a (by simp) with hser | hnone | ⟨s, hs, hop⟩
      · unfold syncEvent classify
        rw [if_pos hser, if_pos hser]
      · have hft : findTerminal db a.serial = none := by
          unfold dbSerialOf at hnone
          cases hx : findTerminal db a.serial <;> simp [hx] at hnone ⊢
        by_cases hser : a.serial = ""
        · unfold syncEvent classify
          rw [if_pos hser, if_pos hser]
        · unfold syncEvent classify
          rw [if_neg hser, if_neg hser, hft]
          simp
      · obtain ⟨tm, hft, htms⟩ := (dbSerialOf_eq_some db a.serial s).mp hs
        by_cases hser : a.serial = ""
        · unfold syncEvent classify
          rw [if_pos hser, if_pos hser]
        · unfold syncEvent classify
          rw [if_neg hser, if_neg hser, hft]
          simp [htms, hop]
    show (let r := syncEvent today db a
          let st := syncBatch today r.1 rest
          (st.1, r.2 :: st.2)) = (db, classify db a :: rest.map (classify db))
    rw [hev]
    have := ih db (fun x hx => h x (by simp [hx]))
    simp only []
    rw [this]

/-- Every first-run outcome collapses (`updated ↦ ignored`) to the
classification outcome, which depends only on the terminal serials. -/
theorem syncBatch_collapse (today : String) :
    ∀ (batch : List Assignment) (db : StockDb),
    (syncBatch today db batch).2.map collapseUpdated = batch.map (classify db) := by
  intro batch
  induction batch with
  | nil => intro db; rfl
  | cons a rest ih =>
    intro db
    show (collapseUpdated (syncEvent today db a).2) ::
        (syncBatch today (syncEvent today db a).1 rest).2.map collapseUpdated
      = classify db a :: rest.map (classify db)
    congr 1
    · unfold syncEvent classify collapseUpdated
      split
      · simp
      · cases hft : findTerminal db a.serial with
        | none => simp [hft]
        | some tm =>
          simp only [hft]
          split <;> simp
    · rw [ih]
      apply List.map_congr_left
      intro x _
      exact classify_congr (syncEvent today db a).1 db
        (fun y => dbSerialOf_syncEvent today db a y) x

theorem count_updated_collapse (os : List Outcome) :
    (os.map collapseUpdated).count Outcome.updated = 0 := by
  rw [List.count_eq_zero]
  intro hmem
  rcases List.mem_map.mp hmem with ⟨o, _, ho⟩
  unfold collapseUpdated at ho
  split at ho <;> simp_all

/-! ## C1: idempotence of the Stock Reconciliation Transaction -/

/-- C1 counterexample: a batch that lists the same serial under two
different `(mid, tid)` pairs is `updated` again on the second run (the two
events keep closing each other's open issuance), so the second call does
not yield `updated = 0`. -/
theorem sync_rerun_counterexample :
    ((syncBatch "2024-01-02"
        (syncBatch "2024-01-01" ⟨[⟨"S", "IN_STOCK"⟩], []⟩
          [⟨"S", "A", "Shop", "T1"⟩, ⟨"S", "B", "Shop", "T2"⟩]).1
        [⟨"S", "A", "Shop", "T1"⟩, ⟨"S", "B", "Shop", "T2"⟩]).2.count .updated) ≠ 0 := by
  decide

/-- C1 (amended): for every batch in which no serial (compared
case/whitespace-insensitively) occurs with two different `(mid, tid)`
pairs, rerunning the Stock Reconciliation Transaction leaves the store
unchanged, turns exactly the events counted `updated` in the first run
into `ignored` (all other per-event outcomes are repeated), and therefore
yields `updated = 0` on the second call. -/
theorem sync_rerun_ignores (today₁ today₂ : String) (db : StockDb) (batch : List Assignment)
    (hc : consistentBatch batch) :
    syncBatch today₂ (syncBatch today₁ db batch).1 batch =
      ((syncBatch today₁ db batch).1,
        (syncBatch today₁ db batch).2.map collapseUpdated) ∧
    (syncBatch today₂ (syncBatch today₁ db batch).1 batch).2.count .updated = 0 := by
  have hinv : ∀ x, dbSerialOf (syncBatch today₁ db batch).1 x = dbSerialOf db x :=
    fun x => dbSerialOf_syncBatch today₁ batch db x
  have hstatic : syncBatch today₂ (syncBatch today₁ db batch).1 batch =
      ((syncBatch today₁ db batch).1,
        batch.map (classify (syncBatch today₁ db batch).1)) := by
    apply syncBatch_static
    intro a ha
    by_cases hser : a.serial = ""
    · exact Or.inl hser
    · cases hd : dbSerialOf (syncBatch today₁ db batch).1 a.serial with
      | none => exact Or.inr (Or.inl rfl)
      | some s =>
        refine Or.inr (Or.inr ⟨s, rfl, ?_⟩)
        apply syncBatch_creates_open today₁ batch db hc a ha hser s
        rw [← hinv a.serial]
        exact hd
  have hmaps : batch.map (classify (syncBatch today₁ db batch).1) =
      (syncBatch today₁ db batch).2.map collapseUpdated := by
    rw [syncBatch_collapse today₁ batch db]
    apply List.map_congr_left
    intro x _
    exact classify_congr (syncBatch today₁ db batch).1 db hinv x
  constructor
  · rw [hstatic, hmaps]
  · rw [hstatic, hmaps]
    exact count_updated_collapse _

/-- Witness for C1: a consistent two-event batch against a one-terminal
store; the theorem then evaluates on it. -/
theorem sync_rerun_ignores_witness :
    consistentBatch [⟨"S", "A", "Shop", "T1"⟩, ⟨" s ", "A", "Shop", "T1"⟩] ∧
    (syncBatch "2024-01-02"
        (syncBatch "2024-01-01" ⟨[⟨"S", "IN_STOCK"⟩], []⟩
          [⟨"S", "A", "Shop", "T1"⟩, ⟨" s ", "A", "Shop", "T1"⟩]).1
        [⟨"S", "A", "Shop", "T1"⟩, ⟨" s ", "A", "Shop", "T1"⟩]).2.count .updated = 0 :=
  ⟨by decide,
    (sync_rerun_ignores "2024-01-01" "2024-01-02" ⟨[⟨"S", "IN_STOCK"⟩], []⟩
      [⟨"S", "A", "Shop", "T1"⟩, ⟨" s ", "A", "Shop", "T1"⟩] (by decide)).2⟩

/-! ## The serverless deployment variant (`api/stock/sync-assignments.ts`) -/

inductive ServerlessReply where
  | methodNotAllowed
  | ok (updated ignored notFound : Nat) (mode : String)
  deriving DecidableEq, Repr

/-- The Vercel `handler` for `POST /api/stock/sync-assignments`: it never
touches a store (the deployment has no SQLite engine), so the model
threads the store through unchanged.  `assignments = none` models a body
whose `assignments` field is not an array. -/
def serverlessSyncAssignments (store : StockDb) (method : String)
    (assignments : Option (List Assignment)) : ServerlessReply × StockDb :=
  if method ≠ "POST" then (.methodNotAllowed, store)
  else
    let asg := assignments.getD []
    (.ok 0 asg.length 0 "no-op", store)

/-- C10: the serverless sync-assignments handler answers every POST whose
body carries an assignments array of length `N` with
`updated = 0, ignored = N, notFound = 0` and mutates nothing. -/
theorem serverless_sync_noop (store : StockDb) (l : List Assignment) :
    serverlessSyncAssignments store "POST" (some l) =
      (.ok 0 l.length 0 "no-op", store) := rfl

/-! ## The issue / return endpoints -/

/-- Model of running the prepared statement
`SELECT status FROM terminals WHERE serial_number = ?` with the given
bound parameter.  better-sqlite3 raises
`RangeError: Too few parameter values were provided` when the statement is
run with its placeholder unbound (`bound = none`), which is exactly how
both `/api/stock/issue` and `/api/stock/return` invoke it (`.get()` with
no argument). -/
def getStatusBySerial (db : StockDb) (bound : Option String) : Except String (Option String) :=
  match bound with
  | none => .error "RangeError: Too few parameter values were provided"
  | some s => .ok ((db.terminals.find? (fun t => t.serial_number == s)).map Terminal.status)

inductive StockReply where
  | ok
  | badRequest (msg : String)
  | thrown (msg : String)
  deriving DecidableEq, Repr

/-- `POST /api/stock/issue`.  The source looks the terminal up with
`.get()` and no bound value for the statement's `?` placeholder, so the
lookup throws before the state check or the transaction can run. -/
def issueEndpoint (db : StockDb)
    (serial_number mid merchant_name tid issue_date issued_by notes : String) :
    StockDb × StockReply :=
  match getStatusBySerial db none with
  | .error msg => (db, .thrown msg)
  | .ok st =>
    if st ≠ some "IN_STOCK" then (db, .badRequest "Terminal is not available for issuance.")
    else
      ({ terminals := db.terminals.map (fun t =>
           if t.serial_number == serial_number then { t with status := "ISSUED" } else t),
         issuances := db.issuances ++
           [{ serial_number := serial_number, mid := mid, merchant_name := merchant_name,
              tid := tid, issue_date := issue_date, return_date := none,
              issued_by := issued_by, notes := notes }] }, .ok)

/-- `POST /api/stock/return` (same unbound-parameter lookup). -/
def returnEndpoint (db : StockDb) (serial_number return_date notes : String) :
    StockDb × StockReply :=
  match getStatusBySerial db none with
  | .error msg => (db, .thrown msg)
  | .ok st =>
    if st ≠ some "ISSUED" then (db, .badRequest "Terminal is not currently issued.")
    else
      ({ terminals := db.terminals.map (fun t =>
           if t.serial_number == serial_number then { t with status := "IN_STOCK" } else t),
         issuances := db.issuances.map (fun i =>
           if i.serial_number == serial_number && i.return_date.isNone then
             { i with return_date := some return_date,
                      notes := i.notes ++ " | Return Note: " ++ notes }
           else i) }, .ok)

/-! ## C3: atomicity of the reconciliation batch -/

/-- Transaction state: the store plus a fuel counter used to inject a
store failure at an arbitrary point of the statement sequence. -/
structure TxState where
  db : StockDb
  fuel : Nat
  deriving DecidableEq, Repr

/-- Run one mutating SQL statement inside the transaction.  The statement
whose index exhausts the fuel raises, modelling an error from the
persistent store partway through the batch. -/
def runStmt (st : TxState) (f : StockDb → StockDb) : Except String TxState :=
  match st.fuel with
  | 0 => .error "SQLITE_ERROR"
  | n + 1 => .ok ⟨f st.db, n⟩

/-- `syncEvent` with fallible store statements: on a raised error the
partially mutated state at the failure point is returned together with the
error. -/
def syncEventF (today : String) (st : TxState) (a : Assignment) :
    TxState × Except String Outcome :=
  if a.serial = "" then (st, .ok .ignored)
  else
    match findTerminal st.db a.serial with
    | none => (st, .ok .notFound)
    | some t =>
      if hasOpenIssuance st.db t.serial_number a.mid a.tid then (st, .ok .ignored)
      else
        match runStmt st (fun d => setIssued d t.serial_number) with
        | .error e => (st, .error e)
        | .ok st1 =>
          match runStmt st1 (fun d => closeOpenIssuances d t.serial_number today) with
          | .error e => (st1, .error e)
          | .ok st2 =>
            match runStmt st2 (fun d =>
                insertSyncIssuance d t.serial_number a.mid a.merchantName a.tid today) with
            | .error e => (st2, .error e)
            | .ok st3 => (st3, .ok .updated)

/-- The raw execution of the whole batch: it stops at the first raised
statement, leaving the mutations already made visible in the returned
state. -/
def syncBatchF (today : String) :
    TxState → List Assignment → TxState × Except String (List Outcome)
  | st, [] => (st, .ok [])
  | st, a :: rest =>
    match syncEventF today st a with
    | (st1, .error e) => (st1, .error e)
    | (st1, .ok o) =>
      match syncBatchF today st1 rest with
      | (st2, .error e) => (st2, .error e)
      | (st2, .ok os) => (st2, .ok (o :: os))

inductive SyncReply where
  | ok (updated ignored notFound : Nat)
  | serverError (msg : String)
  deriving DecidableEq, Repr

/-- `POST /api/stock/sync-assignments`: `syncTransaction(assignments)`
inside `try/catch`.  `db.transaction` (better-sqlite3) rolls every
statement of the batch back when the wrapped function throws, so on a
raised error the store reverts to its pre-call state and the handler
answers HTTP 500 with `{error}` — no counts. -/
def syncAssignmentsEndpoint (today : String) (db : StockDb) (fuel : Nat)
    (batch : List Assignment) : StockDb × SyncReply :=
  match syncBatchF today ⟨db, fuel⟩ batch with
  | (_, .error e) => (db, .serverError e)
  | (st, .ok os) =>
    (st.db, .ok (os.count .updated) (os.count .ignored) (os.count .notFound))

/-- C3: if the store raises partway through the reconciliation batch, the
endpoint leaves the store exactly as before the call and surfaces a
failure instead of partial counts. -/
theorem sync_failure_rolls_back (today : String) (db : StockDb) (fuel : Nat)
    (batch : List Assignment)
    (h : ∃ e, (syncBatchF today ⟨db, fuel⟩ batch).2 = .error e) :
    (syncAssignmentsEndpoint today db fuel batch).1 = db ∧
    ∃ e, (syncAssignmentsEndpoint today db fuel batch).2 = .serverError e := by
  obtain ⟨e, he⟩ := h
  unfold syncAssignmentsEndpoint
  cases hres : syncBatchF today ⟨db, fuel⟩ batch with
  | mk st r =>
    cases r with
    | error e2 => exact ⟨rfl, e2, rfl⟩
    | ok os => rw [hres] at he; simp at he

/-- Witness for C3: with fuel for a single statement, the status update of
the first event commits and the close statement raises; the raw run shows
a real intermediate mutation, yet the endpoint returns the original store
and a failure. -/
theorem sync_failure_rolls_back_witness :
    (syncBatchF "D" ⟨⟨[⟨"S", "IN_STOCK"⟩], []⟩, 1⟩
        [⟨"S", "A", "Shop", "T1"⟩]).1.db ≠ ⟨[⟨"S", "IN_STOCK"⟩], []⟩ ∧
    ((syncAssignmentsEndpoint "D" ⟨[⟨"S", "IN_STOCK"⟩], []⟩ 1
        [⟨"S", "A", "Shop", "T1"⟩]).1 = ⟨[⟨"S", "IN_STOCK"⟩], []⟩ ∧
      ∃ e, (syncAssignmentsEndpoint "D" ⟨[⟨"S", "IN_STOCK"⟩], []⟩ 1
        [⟨"S", "A", "Shop", "T1"⟩]).2 = .serverError e) :=
  ⟨by decide,
    sync_failure_rolls_back "D" ⟨[⟨"S", "IN_STOCK"⟩], []⟩ 1
      [⟨"S", "A", "Shop", "T1"⟩] ⟨"SQLITE_ERROR", rfl⟩⟩

/-! ## C4: at most one open issuance per serial -/

/-- The invariant: no two issuance records of the same raw serial are both
open. -/
def openUnique (db : StockDb) : Prop :=
  db.issuances.Pairwise (fun i j =>
    ¬ (i.serial_number = j.serial_number ∧ i.return_date = none ∧ j.return_date = none))

instance (db : StockDb) : Decidable (openUnique db) := by
  unfold openUnique
  infer_instance

/-- A record that is still open after the close statement was left
untouched by it. -/
theorem closer_open_eq (d today : String) (i : Issuance)
    (h : ((if i.serial_number == d && i.return_date.isNone then
        { i with return_date := some today, notes := i.notes ++ " | Auto-closed by POS Sync" }
      else i) : Issuance).return_date = none) :
    (i.serial_number == d && i.return_date.isNone) = false ∧
    (if i.serial_number == d && i.return_date.isNone then
        { i with return_date := some today, notes := i.notes ++ " | Auto-closed by POS Sync" }
      else i) = i := by
  by_cases hc : (i.serial_number == d && i.return_date.isNone) = true
  · rw [if_pos hc] at h
    simp at h
  · have hc' : (i.serial_number == d && i.return_date.isNone) = false :=
      Bool.eq_false_iff.mpr hc
    exact ⟨hc', by rw [if_neg (by simp [hc'])]⟩

theorem openUnique_syncEvent (today : String) (db : StockDb) (a : Assignment)
    (h : openUnique db) : openUnique (syncEvent today db a).1 := by
  unfold syncEvent
  split
  · exact h
  · cases hft : findTerminal db a.serial with
    | none => exact h
    | some t =>
      simp only []
      split
      · exact h
      · unfold openUnique at h ⊢
        show (db.issuances.map _ ++ [_]).Pairwise _
        rw [List.pairwise_append]
        refine ⟨?_, by simp, ?_⟩
        · apply h.map
          intro i j hij hbad
          obtain ⟨hser, hio, hjo⟩ := hbad
          obtain ⟨_, hieq⟩ := closer_open_eq t.serial_number today i hio
          obtain ⟨_, hjeq⟩ := closer_open_eq t.serial_number today j hjo
          rw [hieq] at hser hio
          rw [hjeq] at hser hjo
          exact hij ⟨hser, hio, hjo⟩
        · intro x hx y hy hbad
          obtain ⟨i0, hi0, hxeq⟩ := List.mem_map.mp hx
          obtain ⟨hser, hxo, _⟩ := hbad
          rw [List.mem_singleton] at hy
          subst hy
          rw [← hxeq] at hser hxo
          obtain ⟨hcond, hxi⟩ := closer_open_eq t.serial_number today i0 hxo
          rw [hxi] at hser hxo
          have : (i0.serial_number == t.serial_number && i0.return_date.isNone) = true := by
            simp only [Bool.and_eq_true, beq_iff_eq, Option.isNone_iff_eq_none]
            exact ⟨hser, hxo⟩
          rw [this] at hcond
          exact absurd hcond (by simp)

theorem openUnique_syncBatch (today : String) :
    ∀ (batch : List Assignment) (db : StockDb),
    openUnique db → openUnique (syncBatch today db batch).1 := by
  intro batch
  induction batch with
  | nil => intro db h; exact h
  | cons a rest ih =>
    intro db h
    show openUnique (syncBatch today (syncEvent today db a).1 rest).1
    exact ih _ (openUnique_syncEvent today db a h)

/-- C4: every issuance-store mutation of the engine — the issue command,
the return command, a single reconciliation event and a whole
reconciliation batch — preserves the at-most-one-open-issuance-per-serial
invariant.  (The issue and return endpoints never reach their mutations:
their status lookup runs with an unbound statement parameter and throws,
cf. the C8 analysis; the reconciliation event closes every open issuance
of the serial before inserting the new one.) -/
theorem openUnique_preserved (db : StockDb)
    (today serial mid mname tid date issuedBy notes retDate : String)
    (a : Assignment) (batch : List Assignment) (h : openUnique db) :
    openUnique (issueEndpoint db serial mid mname tid date issuedBy notes).1 ∧
    openUnique (returnEndpoint db serial retDate notes).1 ∧
    openUnique (syncEvent today db a).1 ∧
    openUnique (syncBatch today db batch).1 :=
  ⟨h, h, openUnique_syncEvent today db a h, openUnique_syncBatch today batch db h⟩

/-- Witness for C4: a store with one open and one closed issuance of the
same serial satisfies the invariant, and the theorem evaluates on it. -/
theorem openUnique_preserved_witness :
    openUnique ⟨[⟨"S", "ISSUED"⟩],
      [⟨"S", "A", "Shop", "T1", "2024-01-01", some "2024-01-05", "op", ""⟩,
       ⟨"S", "B", "Shop", "T2", "2024-01-05", none, "op", ""⟩]⟩ ∧
    openUnique (syncBatch "2024-02-01"
      ⟨[⟨"S", "ISSUED"⟩],
        [⟨"S", "A", "Shop", "T1", "2024-01-01", some "2024-01-05", "op", ""⟩,
         ⟨"S", "B", "Shop", "T2", "2024-01-05", none, "op", ""⟩]⟩
      [⟨"s", "C", "Shop", "T3"⟩]).1 :=
  ⟨by decide,
    (openUnique_preserved
      ⟨[⟨"S", "ISSUED"⟩],
        [⟨"S", "A", "Shop", "T1", "2024-01-01", some "2024-01-05", "op", ""⟩,
         ⟨"S", "B", "Shop", "T2", "2024-01-05", none, "op", ""⟩]⟩
      "2024-02-01" "S" "A" "Shop" "T1" "2024-02-01" "op" "" "2024-02-01"
      ⟨"s", "C", "Shop", "T3"⟩ [⟨"s", "C", "Shop", "T3"⟩] (by decide)).2.2.2⟩

/-- C8: evaluating the issue command on a store whose terminal `T1` is in
`ISSUED` state.  Because the status lookup runs its statement with the
serial parameter unbound, the call throws a `RangeError` (surfacing as an
HTTP 500) instead of answering with the 400 `StateConflict` response; no
mutation is performed either way. -/
theorem issue_on_issued_throws :
    issueEndpoint ⟨[⟨"T1", "ISSUED"⟩], []⟩ "T1" "M1" "Shop" "TID1" "2024-01-01" "op" "" =
      (⟨[⟨"T1", "ISSUED"⟩], []⟩,
        .thrown "RangeError: Too few parameter values were provided") := rfl

/-! ## The payment ledger -/

/-- `PaymentRow` of `types.ts`.  The optional `notes` and
`selectedSignatures` fields are modelled with `""` / `[]` defaults. -/
structure PaymentRow where
  receiptRef : String
  date : String
  mid : String
  amount : ℚ
  paymentType : String
  notes : String
  selectedSignatures : List String
  deriving DecidableEq, Repr

/-- The ledger key of `processCloudData`:
`p.receiptRef.toLowerCase().trim()`. -/
def refKey (s : String) : String :=
  jsTrim (jsToLower s)

/-- The invariant of claim C5: `receiptRef`, compared case- and
whitespace-insensitively, is unique across the ledger. -/
def ledgerInv (ledger : List PaymentRow) : Prop :=
  (ledger.map (fun p => refKey p.receiptRef)).Nodup

instance (ledger : List PaymentRow) : Decidable (ledgerInv ledger) := by
  unfold ledgerInv
  infer_instance

/-- One raw item of the cloud feed, after the field-name fallback chains
(`merchantId || merchantID || mid`, `bankingReferenceNumber || receiptRef
|| referenceNumber`, `dateOfPayment || date`, `amountPaid || amount`,
`serialNumbers || serial_numbers`) selected a value; `amountPaid` models
the number `parseFloat(String(amount).replace(/[^0-9.]/g, ''))`. -/
structure CloudItem where
  merchantId : String
  bankingReferenceNumber : String
  dateOfPayment : String
  amountPaid : ℚ
  serialNumbers : String
  creditedToAccount : String
  deriving DecidableEq, Repr

/-- `serials ? String(serials).split(',').map(s => s.trim()).filter(s => s) : []`. -/
def splitSerials (s : String) : List String :=
  if s = "" then [] else ((s.splitOn ",").map jsTrim).filter (fun x => x != "")

/-- The mapping step of `processCloudData`. -/
def mkCloudPayment (it : CloudItem) : PaymentRow :=
  { receiptRef := jsTrim it.bankingReferenceNumber,
    date := jsTrim it.dateOfPayment,
    mid := normMid it.merchantId,
    amount := it.amountPaid,
    paymentType := "Cloud Sync",
    notes := "Synced from Google Sheets. Credited to: " ++
      (if it.creditedToAccount = "" then "N/A" else it.creditedToAccount),
    selectedSignatures := splitSerials it.serialNumbers }

/-- `.filter(p => p.receiptRef && p.mid && p.amount > 0)`. -/
def keepPayment (p : PaymentRow) : Bool :=
  p.receiptRef != "" && p.mid != "" && 0 < p.amount

/-- `findIndex` + in-place replacement: replace the first element
satisfying `p`; `none` when no index matches (the source's
`index !== -1` guard). -/
def updateFirst? (p : α → Bool) (f : α → α) : List α → Option (List α)
  | [] => none
  | a :: l => if p a then some (f a :: l) else (updateFirst? p f l).map (fun l2 => a :: l2)

/-- The backfill of `processCloudData`:
`{ ...current, mid: cp.mid, amount: cp.amount || current.amount }`. -/
def backfillPatch (cp cur : PaymentRow) : PaymentRow :=
  { cur with
    mid := cp.mid
    amount := if cp.amount ≠ 0 then cp.amount else cur.amount }

/-- One iteration of the merge loop of `processCloudData`.  `prev` is the
ledger the `existingMap` was built from (it is not refreshed during the
loop, and the JS `Map` keeps the last record per key); the merge policy is
append-if-new, backfill-if-merchantless, otherwise discard. -/
def mergeStep (prev : List PaymentRow) (st : List PaymentRow × Nat × Nat)
    (cp : PaymentRow) : List PaymentRow × Nat × Nat :=
  let k := refKey cp.receiptRef
  match (prev.filter (fun p => refKey p.receiptRef == k)).getLast? with
  | none => (st.1 ++ [cp], st.2.1 + 1, st.2.2)
  | some existing =>
    if existing.mid = "" ∧ cp.mid ≠ "" then
      match updateFirst? (fun p => refKey p.receiptRef == k) (backfillPatch cp) st.1 with
      | some l2 => (l2, st.2.1, st.2.2 + 1)
      | none => st
    else st

/-- `processCloudData`: normalize and filter the feed, then fold the merge
loop over it.  Returns the new ledger together with
`(addedCount, updatedCount)`. -/
def processCloudData (prev : List PaymentRow) (data : List CloudItem) :
    List PaymentRow × Nat × Nat :=
  ((data.map mkCloudPayment).filter keepPayment).foldl (mergeStep prev) (prev, 0, 0)

/-- One parsed CSV payment row, after the `ReceiptRef || receipt` style
fallbacks; `amount` models `parseFloat(String(...).replace(/[^0-9.]/g, ''))`. -/
structure CsvRow where
  receiptRef : String
  date : String
  mid : String
  amount : ℚ
  paymentType : String
  notes : String
  deriving DecidableEq, Repr

/-- `handlePaymentUpload`, CSV branch: normalize each parsed row, drop
rows without a receipt reference, and append the rest to the ledger —
with no duplicate check against existing records. -/
def handlePaymentUploadCsv (prev : List PaymentRow) (rows : List CsvRow) : List PaymentRow :=
  prev ++ (rows.map (fun r =>
    ({ receiptRef := jsTrim r.receiptRef, date := jsTrim r.date, mid := normMid r.mid,
       amount := r.amount, paymentType := r.paymentType, notes := r.notes,
       selectedSignatures := [] } : PaymentRow))).filter (fun p => p.receiptRef != "")

/-- `handleManualPayment`: the guards of the source in order — at least
one selected terminal, non-empty reference and date, the global
case/whitespace-insensitive duplicate-reference check, and the merchant
lookup (modelled by the `merchantFound` flag).  On success the new record
is appended. -/
def handleManualPayment (prev : List PaymentRow) (manualRef manualDate mid : String)
    (manualSignatures : List String) (amount : ℚ) (merchantFound : Bool) : List PaymentRow :=
  let finalRef := jsTrim manualRef
  if manualSignatures = [] then prev
  else if finalRef = "" ∨ manualDate = "" then prev
  else if prev.any (fun p => jsToLower (jsTrim p.receiptRef) == jsToLower finalRef) then prev
  else if !merchantFound then prev
  else
    prev ++
      [{ receiptRef := finalRef, date := manualDate, mid := normMid mid,
         amount := amount, paymentType := "Manual Entry",
         notes := "Payment for " ++ toString manualSignatures.length
           ++ " terminal(s). Credited to account: 202959988",
         selectedSignatures := manualSignatures }]

/-! ## C9: idempotence of the cloud merge on the spec's concrete feed -/

/-- C9: merging the feed `[{receiptRef:"R1", merchantId:"007",
amount:16825}]` twice yields `addedCount = 1` on the first call,
`addedCount = 0` and no backfill on the second, leaves the ledger of the
first merge unchanged, and exactly one record carries the receipt key of
`"R1"`. -/
theorem cloud_merge_idempotent :
    (processCloudData [] [⟨"007", "R1", "2024-01-01", 16825, "", ""⟩]).2.1 = 1 ∧
    (processCloudData (processCloudData [] [⟨"007", "R1", "2024-01-01", 16825, "", ""⟩]).1
      [⟨"007", "R1", "2024-01-01", 16825, "", ""⟩]).2.1 = 0 ∧
    (processCloudData (processCloudData [] [⟨"007", "R1", "2024-01-01", 16825, "", ""⟩]).1
      [⟨"007", "R1", "2024-01-01", 16825, "", ""⟩]).2.2 = 0 ∧
    (processCloudData (processCloudData [] [⟨"007", "R1", "2024-01-01", 16825, "", ""⟩]).1
      [⟨"007", "R1", "2024-01-01", 16825, "", ""⟩]).1
      = (processCloudData [] [⟨"007", "R1", "2024-01-01", 16825, "", ""⟩]).1 ∧
    ((processCloudData (processCloudData [] [⟨"007", "R1", "2024-01-01", 16825, "", ""⟩]).1
      [⟨"007", "R1", "2024-01-01", 16825, "", ""⟩]).1.filter
        (fun p => refKey p.receiptRef == refKey "R1")).length = 1 := by
  decide

/-! ## C5: uniqueness of receipt references across the ledger -/

/-- C5 counterexample: the payment-file upload appends without any
duplicate-reference check, so uploading a row whose receipt reference is
already in the ledger breaks the uniqueness invariant. -/
theorem receiptRef_unique_counterexample :
    ledgerInv [⟨"R1", "2024-01-01", "7", 16825, "Manual Entry", "", []⟩] ∧
    ¬ ledgerInv (handlePaymentUploadCsv
        [⟨"R1", "2024-01-01", "7", 16825, "Manual Entry", "", []⟩]
        [⟨"R1", "2024-01-02", "0042", 100, "CSV Import", ""⟩]) := by
  decide

theorem updateFirst?_map_eq {α β : Type} (p : α → Bool) (f : α → α) (g : α → β)
    (hg : ∀ x, g (f x) = g x) :
    ∀ (l l2 : List α), updateFirst? p f l = some l2 → l2.map g = l.map g := by
  intro l
  induction l with
  | nil => intro l2 h; simp [updateFirst?] at h
  | cons a l ih =>
    intro l2 h
    unfold updateFirst? at h
    split at h
    · cases h
      simp [hg]
    · cases hrec : updateFirst? p f l with
      | none => rw [hrec] at h; simp at h
      | some l3 =>
        rw [hrec] at h
        simp at h
        subst h
        simp [ih l3 hrec]

theorem getLast?_filter_eq_none {α : Type} (p : α → Bool) (l : List α)
    (h : (l.filter p).getLast? = none) : ∀ x ∈ l, ¬ p x := by
  rw [List.getLast?_eq_none_iff] at h
  intro x hx hpx
  have : x ∈ l.filter p := List.mem_filter.mpr ⟨hx, hpx⟩
  rw [h] at this
  simp at this

theorem mergeStep_append (prev : List PaymentRow) (st : List PaymentRow × Nat × Nat)
    (cp : PaymentRow)
    (hlast : (prev.filter
      (fun p => refKey p.receiptRef == refKey cp.receiptRef)).getLast? = none) :
    mergeStep prev st cp = (st.1 ++ [cp], st.2.1 + 1, st.2.2) := by
  simp only [mergeStep]
  rw [hlast]

theorem mergeStep_keys_existing (prev : List PaymentRow) (st : List PaymentRow × Nat × Nat)
    (cp existing : PaymentRow)
    (hlast : (prev.filter
      (fun p => refKey p.receiptRef == refKey cp.receiptRef)).getLast? = some existing) :
    (mergeStep prev st cp).1.map (fun p => refKey p.receiptRef)
      = st.1.map (fun p => refKey p.receiptRef) := by
  simp only [mergeStep]
  rw [hlast]
  split
  · rename_i heq
    exact absurd heq (by simp)
  · rename_i ex2 heq
    have hex : ex2 = existing := by
      injection heq with h
      exact h.symm
    subst hex
    split
    · cases hupd : updateFirst? (fun p => refKey p.receiptRef == refKey cp.receiptRef)
          (backfillPatch cp) st.1 with
      | none => rfl
      | some l2 =>
        exact updateFirst?_map_eq (fun p => refKey p.receiptRef == refKey cp.receiptRef)
          (backfillPatch cp) (fun p => refKey p.receiptRef) (fun x => rfl) st.1 l2 hupd
    · rfl

/-- The merge loop invariant: starting from a ledger with unique keys,
folding kept feed items with pairwise distinct keys keeps the keys
unique, provided every remaining item whose key is absent from `prev` is
also absent from the accumulated ledger. -/
theorem merge_fold_inv (prev : List PaymentRow) :
    ∀ (items : List PaymentRow) (st : List PaymentRow × Nat × Nat),
    ledgerInv st.1 →
    ((items.map (fun p => refKey p.receiptRef)).Nodup) →
    (∀ it ∈ items, refKey it.receiptRef ∉ prev.map (fun p => refKey p.receiptRef) →
      refKey it.receiptRef ∉ st.1.map (fun p => refKey p.receiptRef)) →
    ledgerInv (items.foldl (mergeStep prev) st).1 := by
  intro items
  induction items with
  | nil => intro st h _ _; exact h
  | cons cp rest ih =>
    intro st hinv hkeys hfresh
    have hkrest : ((rest.map (fun p => refKey p.receiptRef)).Nodup) :=
      (List.nodup_cons.mp hkeys).2
    have hknot : refKey cp.receiptRef ∉ rest.map (fun p => refKey p.receiptRef) :=
      (List.nodup_cons.mp hkeys).1
    show ledgerInv (rest.foldl (mergeStep prev) (mergeStep prev st cp)).1
    cases hlast : (prev.filter
        (fun p => refKey p.receiptRef == refKey cp.receiptRef)).getLast? with
    | none =>
      -- a fresh key: the item is appended
      have hnotprev : refKey cp.receiptRef ∉ prev.map (fun p => refKey p.receiptRef) := by
        intro hmem
        obtain ⟨q, hq, hqk⟩ := List.mem_map.mp hmem
        exact getLast?_filter_eq_none _ prev hlast q hq (by simp [hqk])
      have hnotst : refKey cp.receiptRef ∉ st.1.map (fun p => refKey p.receiptRef) :=
        hfresh cp (by simp) hnotprev
      rw [mergeStep_append prev st cp hlast]
      apply ih
      · unfold ledgerInv at hinv ⊢
        simp only [List.map_append, List.map_cons, List.map_nil]
        rw [List.nodup_append]
        exact ⟨hinv, by simp, by simpa [List.disjoint_right] using hnotst⟩
      · exact hkrest
      · intro it hit hitp
        simp only [List.map_append, List.map_cons, List.map_nil, List.mem_append]
        rintro (hin | hin)
        · exact hfresh it (by simp [hit]) hitp hin
        · simp at hin
          exact hknot (hin ▸ List.mem_map_of_mem (fun p => refKey p.receiptRef) hit)
    | some existing =>
      have hmap := mergeStep_keys_existing prev st cp existing hlast
      apply ih
      · unfold ledgerInv at hinv ⊢
        rw [hmap]
        exact hinv
      · exact hkrest
      · intro it hit hitp
        rw [hmap]
        exact hfresh it (by simp [hit]) hitp

/-- C5 (amended): manual entry preserves the case/whitespace-insensitive
uniqueness of `receiptRef`, and the cloud-feed merge preserves it whenever
the kept feed items carry pairwise distinct receipt keys; the payment-file
upload checks nothing and does not preserve it (counterexample). -/
theorem receiptRef_unique_preserved (prev : List PaymentRow) (hinv : ledgerInv prev)
    (manualRef manualDate mid : String) (sigs : List String) (amount : ℚ) (found : Bool)
    (data : List CloudItem)
    (hdata : (((data.map mkCloudPayment).filter keepPayment).map
        (fun p => refKey p.receiptRef)).Nodup) :
    ledgerInv (handleManualPayment prev manualRef manualDate mid sigs amount found) ∧
    ledgerInv (processCloudData prev data).1 := by
  constructor
  · unfold handleManualPayment
    simp only []
    by_cases h1 : sigs = []
    · rw [if_pos h1]
      exact hinv
    rw [if_neg h1]
    by_cases h2 : jsTrim manualRef = "" ∨ manualDate = ""
    · rw [if_pos h2]
      exact hinv
    rw [if_neg h2]
    by_cases h3 : (prev.any
        (fun p => jsToLower (jsTrim p.receiptRef) == jsToLower (jsTrim manualRef))) = true
    · rw [if_pos h3]
      exact hinv
    rw [if_neg h3]
    by_cases h4 : (!found) = true
    · rw [if_pos h4]
      exact hinv
    rw [if_neg h4]
    unfold ledgerInv at hinv ⊢
    simp only [List.map_append, List.map_cons, List.map_nil]
    rw [List.nodup_append]
    refine ⟨hinv, by simp, ?_⟩
    rw [List.disjoint_right]
    intro x hx hxin
    simp only [List.mem_cons, List.not_mem_nil, or_false] at hx
    obtain ⟨q, hq, hqk⟩ := List.mem_map.mp hxin
    apply h3
    apply List.any_eq_true.mpr
    refine ⟨q, hq, ?_⟩
    have hkeyq : refKey q.receiptRef = refKey (jsTrim manualRef) := by
      rw [hqk, hx]
    have h5 : jsToLower (jsTrim q.receiptRef) = jsTrim (jsToLower q.receiptRef) :=
      (jsTrim_jsToLower q.receiptRef).symm
    have h6 : jsTrim (jsToLower (jsTrim manualRef)) = jsToLower (jsTrim manualRef) := by
      rw [jsTrim_jsToLower, jsTrim_jsTrim]
    have : jsToLower (jsTrim q.receiptRef) = jsToLower (jsTrim manualRef) := by
      rw [h5]
      unfold refKey at hkeyq
      rw [hkeyq, h6]
    simpa using this
  · exact merge_fold_inv prev _ (prev, 0, 0) hinv hdata (fun it _ h => h)

/-- Witness for C5: a one-record ledger, a fresh manual reference, and a
two-item feed with distinct keys. -/
theorem receiptRef_unique_preserved_witness :
    ledgerInv [⟨"R1", "2024-01-01", "7", 16825, "Manual Entry", "", []⟩] ∧
    ((([(⟨"42", "R2", "2024-01-02", 100, "", ""⟩ : CloudItem),
        ⟨"43", "r1 ", "2024-01-03", 200, "", ""⟩].map mkCloudPayment).filter
          keepPayment).map (fun p => refKey p.receiptRef)).Nodup ∧
    (ledgerInv (handleManualPayment [⟨"R1", "2024-01-01", "7", 16825, "Manual Entry", "", []⟩]
        " R9 " "2024-02-01" "007" ["S1"] 16825 true) ∧
      ledgerInv (processCloudData [⟨"R1", "2024-01-01", "7", 16825, "Manual Entry", "", []⟩]
        [⟨"42", "R2", "2024-01-02", 100, "", ""⟩,
         ⟨"43", "r1 ", "2024-01-03", 200, "", ""⟩]).1) :=
  ⟨by decide, by decide,
    receiptRef_unique_preserved [⟨"R1", "2024-01-01", "7", 16825, "Manual Entry", "", []⟩]
      (by decide) " R9 " "2024-02-01" "007" ["S1"] 16825 true
      [⟨"42", "R2", "2024-01-02", 100, "", ""⟩, ⟨"43", "r1 ", "2024-01-03", 200, "", ""⟩]
      (by decide)⟩

/-! ## First-occurrence deduplication

Helper used to characterise the push-if-not-included pattern of the
aggregator and the `Set`-valued maps of the data-quality analyzer. -/

def dedupNew (seen : List String) : List String → List String
  | [] => []
  | a :: l => if a ∈ seen then dedupNew seen l else a :: dedupNew (seen ++ [a]) l

theorem mem_dedupNew (b : String) : ∀ (l seen : List String),
    b ∈ dedupNew seen l ↔ b ∈ l ∧ b ∉ seen := by
  intro l
  induction l with
  | nil => intro seen; simp [dedupNew]
  | cons a l ih =>
    intro seen
    unfold dedupNew
    by_cases ha : a ∈ seen
    · rw [if_pos ha, ih]
      constructor
      · rintro ⟨hb, hbs⟩
        exact ⟨by simp [hb], hbs⟩
      · rintro ⟨hb, hbs⟩
        rcases List.mem_cons.mp hb with rfl | hb2
        · exact absurd ha hbs
        · exact ⟨hb2, hbs⟩
    · rw [if_neg ha]
      constructor
      · intro hmem
        rcases List.mem_cons.mp hmem with rfl | h2
        · exact ⟨by simp, ha⟩
        · have h3 := (ih (seen ++ [a])).mp h2
          refine ⟨by simp [h3.1], fun hs => h3.2 (by simp [hs])⟩
      · rintro ⟨hb, hbs⟩
        rcases List.mem_cons.mp hb with rfl | hb2
        · simp
        · by_cases hba : b = a
          · subst hba
            simp
          · apply List.mem_cons_of_mem
            exact (ih (seen ++ [a])).mpr ⟨hb2, by simp [hbs, hba]⟩

theorem nodup_dedupNew : ∀ (l seen : List String), (dedupNew seen l).Nodup := by
  intro l
  induction l with
  | nil => intro seen; simp [dedupNew]
  | cons a l ih =>
    intro seen
    unfold dedupNew
    split
    · exact ih seen
    · refine List.nodup_cons.mpr ⟨?_, ih (seen ++ [a])⟩
      intro hmem
      exact ((mem_dedupNew a l (seen ++ [a])).mp hmem).2 (by simp)

theorem toFinset_dedupNew (l : List String) :
    (dedupNew [] l).toFinset = l.toFinset := by
  ext b
  simp [List.mem_toFinset, mem_dedupNew]

theorem length_dedupNew (l : List String) :
    (dedupNew [] l).length = l.toFinset.card := by
  rw [← toFinset_dedupNew]
  exact (List.toFinset_card_of_nodup (nodup_dedupNew l [])).symm

theorem length_dedupNew_perm (l₁ l₂ : List String) (h : l₁.Perm l₂) :
    (dedupNew [] l₁).length = (dedupNew [] l₂).length := by
  rw [length_dedupNew, length_dedupNew]
  congr 1
  ext b
  simp [List.mem_toFinset, h.mem_iff]

/-! ## The Merchant Aggregator -/

/-- `POSRow` of `types.ts` (the optional fields modelled as plain
strings).  Rows enter the aggregator already column-mapped, with `mid`
already normalized by `posData` (`normalizeMid(row[columnMapping.mid])`). -/
structure POSRow where
  signature : String
  mid : String
  merchantName : String
  tid : String
  region : String
  dzongkhag : String
  contact : String
  deriving DecidableEq, Repr

/-- `MerchantSummary` of `types.ts`. -/
structure MerchantSummary where
  mid : String
  merchantName : String
  terminalCount : Nat
  signatures : List String
  tids : List String
  region : String
  dzongkhag : String
  contact : String
  expectedAmount : ℚ
  paidAmount : ℚ
  outstandingAmount : ℚ
  status : String
  deriving DecidableEq, Repr

/-- The group created when a merchant id is seen for the first time. -/
def freshGroup (r : POSRow) : MerchantSummary :=
  { mid := r.mid, merchantName := r.merchantName, terminalCount := 0,
    signatures := [], tids := [], region := r.region, dzongkhag := r.dzongkhag,
    contact := r.contact, expectedAmount := 0, paidAmount := 0,
    outstandingAmount := 0, status := "UNPAID" }

/-- The per-row updates to a group: push the signature if it is new
(counting it), push the tid if it is new. -/
def countRow (g : MerchantSummary) (r : POSRow) : MerchantSummary :=
  let g1 := if r.signature ∈ g.signatures then g
    else { g with signatures := g.signatures ++ [r.signature],
                  terminalCount := g.terminalCount + 1 }
  if r.tid ∈ g1.tids then g1 else { g1 with tids := g1.tids ++ [r.tid] }

/-- One iteration of the grouping loop of `merchantSummaries`: skip rows
without a merchant id, create the group on first sight (in insertion
order), then apply the per-row updates. -/
def addRowToGroups (groups : List MerchantSummary) (r : POSRow) : List MerchantSummary :=
  if r.mid = "" then groups
  else if groups.any (fun g => g.mid == r.mid) then
    groups.map (fun g => if g.mid == r.mid then countRow g r else g)
  else groups ++ [countRow (freshGroup r) r]

/-- The grouping pass of `merchantSummaries` (a `Record` in insertion
order; the JS engine would front-load integer-like keys, which affects
only the order, never membership). -/
def buildGroups (rows : List POSRow) : List MerchantSummary :=
  rows.foldl addRowToGroups []

/-- `summary.paidAmount`: the filtered-and-summed ledger amounts. -/
def summaryPaid (payments : List PaymentRow) (summaryMid : String) : ℚ :=
  List.foldl (fun s p => s + p.amount) 0
    (payments.filter (fun p => normMid p.mid == summaryMid && !(normMid p.mid == "")))

/-- The payment-calculation pass over one group. -/
def finalizeSummary (payments : List PaymentRow) (unitPrice : ℚ)
    (g : MerchantSummary) : MerchantSummary :=
  let summaryMid := normMid g.mid
  let expected := (g.terminalCount : ℚ) * unitPrice
  let paid := summaryPaid payments summaryMid
  let outstanding := expected - paid
  { g with
    expectedAmount := expected
    paidAmount := paid
    outstandingAmount := outstanding
    status := if outstanding ≤ 0 then "PAID" else if 0 < paid then "PARTIAL" else "UNPAID" }

/-- `merchantSummaries`: empty input short-circuits to `[]`; otherwise
group, compute payments, and stably sort by descending terminal count
(`(a, b) => b.terminalCount - a.terminalCount`). -/
def merchantSummaries (rows : List POSRow) (payments : List PaymentRow)
    (unitPrice : ℚ) : List MerchantSummary :=
  if rows = [] then []
  else ((buildGroups rows).map (finalizeSummary payments unitPrice)).mergeSort
    (fun a b => b.terminalCount ≤ a.terminalCount)

/-! ### Characterising the grouping fold -/

def groupFor (m : String) (groups : List MerchantSummary) : Option MerchantSummary :=
  groups.find? (fun g => g.mid == m)

def applyRows (g : MerchantSummary) (rs : List POSRow) : MerchantSummary :=
  rs.foldl countRow g

theorem countRow_fields (g : MerchantSummary) (r : POSRow) :
    (countRow g r).mid = g.mid ∧
    (countRow g r).signatures = (if r.signature ∈ g.signatures then g.signatures
      else g.signatures ++ [r.signature]) ∧
    (countRow g r).terminalCount = (if r.signature ∈ g.signatures then g.terminalCount
      else g.terminalCount + 1) := by
  unfold countRow
  by_cases hs : r.signature ∈ g.signatures <;>
    simp only [hs, if_true, if_false, ite_true, ite_false] <;>
    split <;> simp

theorem countRow_mid (g : MerchantSummary) (r : POSRow) : (countRow g r).mid = g.mid :=
  (countRow_fields g r).1

theorem groupFor_addRow (groups : List MerchantSummary) (r : POSRow) (m : String) :
    groupFor m (addRowToGroups groups r) =
      if r.mid = "" then groupFor m groups
      else if r.mid = m then
        some (countRow ((groupFor m groups).getD (freshGroup r)) r)
      else groupFor m groups := by
  unfold addRowToGroups
  by_cases h0 : r.mid = ""
  · rw [if_pos h0, if_pos h0]
  rw [if_neg h0, if_neg h0]
  by_cases hpres : groups.any (fun g => g.mid == r.mid) = true
  · rw [if_pos hpres]
    have hupd : ∀ g : MerchantSummary,
        ((if g.mid == r.mid then countRow g r else g).mid == m) = (g.mid == m) := by
      intro g
      split
      · rw [countRow_mid]
      · rfl
    unfold groupFor
    rw [find?_map_comm (fun g => if g.mid == r.mid then countRow g r else g)
      (fun g => g.mid == m) hupd groups]
    by_cases hm2 : r.mid = m
    · subst hm2
      rw [if_pos rfl]
      cases hfind : groups.find? (fun g => g.mid == r.mid) with
      | none =>
        rw [List.find?_eq_none] at hfind
        rcases List.any_eq_true.mp hpres with ⟨g, hg, hgp⟩
        exact absurd hgp (by simpa using hfind g hg)
      | some g0 =>
        have hg0 : (g0.mid == r.mid) = true := by simpa using List.find?_some hfind
        simp [hg0]
        intro hne
        exact absurd (by simpa using hg0) hne
    · rw [if_neg hm2]
      cases hfind : groups.find? (fun g => g.mid == m) with
      | none => rfl
      | some g0 =>
        have hg0 : (g0.mid == m) = true := by simpa using List.find?_some hfind
        have hg0r : (g0.mid == r.mid) = false := by
          have he : g0.mid = m := by simpa using hg0
          exact beq_false_of_ne (by rw [he]; exact fun hh => hm2 hh.symm)
        simp [hg0r]
        intro he
        exact absurd he (by simpa using hg0r)
  · rw [if_neg hpres]
    unfold groupFor
    rw [List.find?_append]
    have hnone : groups.find? (fun g => g.mid == r.mid) = none := by
      rw [List.find?_eq_none]
      intro g hg hp
      exact hpres (List.any_eq_true.mpr ⟨g, hg, hp⟩)
    by_cases hm2 : r.mid = m
    · subst hm2
      rw [if_pos rfl, hnone]
      have hsingle : List.find? (fun g => g.mid == r.mid) [countRow (freshGroup r) r]
          = some (countRow (freshGroup r) r) :=
        List.find?_cons_of_pos [] (by simp [countRow_mid, freshGroup])
      rw [hsingle]
      simp
    · rw [if_neg hm2]
      have hsingle : List.find? (fun g => g.mid == m) [countRow (freshGroup r) r]
          = List.find? (fun g => g.mid == m) [] :=
        List.find?_cons_of_neg [] (by simp [countRow_mid, freshGroup]; exact hm2)
      rw [hsingle]
      cases hfind : groups.find? (fun g => g.mid == m) <;> simp

theorem groupFor_foldl (m : String) (hm : m ≠ "") :
    ∀ (rows : List POSRow) (acc : List MerchantSummary),
    groupFor m (rows.foldl addRowToGroups acc) =
      match groupFor m acc, rows.filter (fun r => r.mid == m) with
      | some g, rs => some (applyRows g rs)
      | none, [] => none
      | none, r0 :: rs => some (applyRows (freshGroup r0) (r0 :: rs)) := by
  intro rows
  induction rows with
  | nil =>
    intro acc
    cases hacc : groupFor m acc <;> simp [hacc, applyRows]
  | cons r rest ih =>
    intro acc
    show groupFor m (rest.foldl addRowToGroups (addRowToGroups acc r)) = _
    rw [ih (addRowToGroups acc r), groupFor_addRow]
    by_cases h0 : r.mid = ""
    · rw [if_pos h0]
      have hfilt : (r :: rest).filter (fun r => r.mid == m) =
          rest.filter (fun r => r.mid == m) :=
        List.filter_cons_of_neg (by simp [h0]; exact fun hh => hm hh.symm)
      rw [hfilt]
    rw [if_neg h0]
    by_cases hm2 : r.mid = m
    · rw [if_pos hm2]
      have hfilt : (r :: rest).filter (fun r => r.mid == m) =
          r :: rest.filter (fun r => r.mid == m) :=
        List.filter_cons_of_pos (by simp [hm2])
      rw [hfilt]
      cases hacc : groupFor m acc with
      | some g => simp [applyRows]
      | none => simp [applyRows]
    · rw [if_neg hm2]
      have hfilt : (r :: rest).filter (fun r => r.mid == m) =
          rest.filter (fun r => r.mid == m) :=
        List.filter_cons_of_neg (by simp [hm2])
      rw [hfilt]

theorem buildGroups_props :
    ∀ (rows : List POSRow) (acc : List MerchantSummary),
    ((acc.map (fun g => g.mid)).Nodup) → (∀ g ∈ acc, g.mid ≠ "") →
    (((rows.foldl addRowToGroups acc).map (fun g => g.mid)).Nodup ∧
      ∀ g ∈ rows.foldl addRowToGroups acc, g.mid ≠ "") := by
  intro rows
  induction rows with
  | nil => intro acc h1 h2; exact ⟨h1, h2⟩
  | cons r rest ih =>
    intro acc h1 h2
    show ((rest.foldl addRowToGroups (addRowToGroups acc r)).map _).Nodup ∧ _
    apply ih
    · unfold addRowToGroups
      split
      · exact h1
      split
      · have hmap : (acc.map (fun g => if g.mid == r.mid then countRow g r else g)).map
            (fun g => g.mid) = acc.map (fun g => g.mid) := by
          rw [List.map_map]
          apply List.map_congr_left
          intro g _
          show (if g.mid == r.mid then countRow g r else g).mid = g.mid
          split
          · rw [countRow_mid]
          · rfl
        rw [hmap]
        exact h1
      · rename_i hne hany
        simp only [List.map_append, List.map_cons, List.map_nil]
        rw [List.nodup_append]
        refine ⟨h1, by simp, ?_⟩
        rw [List.disjoint_right]
        intro x hx hxmem
        simp only [List.mem_cons, List.not_mem_nil, or_false] at hx
        obtain ⟨g, hg, hgm⟩ := List.mem_map.mp hxmem
        rw [countRow_mid] at hx
        apply hany
        apply List.any_eq_true.mpr
        refine ⟨g, hg, ?_⟩
        show (g.mid == r.mid) = true
        rw [hgm, hx]
        exact beq_self_eq_true r.mid
    · unfold addRowToGroups
      split
      · exact h2
      split
      · intro g hg
        obtain ⟨g0, hg0, hge⟩ := List.mem_map.mp hg
        rw [← hge]
        show (if g0.mid == r.mid then countRow g0 r else g0).mid ≠ ""
        split
        · rw [countRow_mid]
          exact h2 g0 hg0
        · exact h2 g0 hg0
      · rename_i hne _
        intro g hg
        rcases List.mem_append.mp hg with hg2 | hg2
        · exact h2 g hg2
        · rw [List.mem_singleton] at hg2
          rw [hg2, countRow_mid]
          exact hne

theorem groupFor_self : ∀ (groups : List MerchantSummary),
    ((groups.map (fun g => g.mid)).Nodup) → ∀ g ∈ groups, groupFor g.mid groups = some g := by
  intro groups
  induction groups with
  | nil => intro _ g hg; simp at hg
  | cons h t ih =>
    intro hnd g hg
    have hnd2 := List.nodup_cons.mp hnd
    rcases List.mem_cons.mp hg with rfl | hgt
    · unfold groupFor
      exact List.find?_cons_of_pos t (by simp)
    · have hne : (h.mid == g.mid) = false := by
        apply beq_false_of_ne
        intro he
        apply hnd2.1
        show h.mid ∈ t.map (fun g => g.mid)
        rw [he]
        exact List.mem_map_of_mem (fun g => g.mid) hgt
      unfold groupFor
      have hstep : List.find? (fun g1 => g1.mid == g.mid) (h :: t)
          = List.find? (fun g1 => g1.mid == g.mid) t :=
        List.find?_cons_of_neg t (by simp [hne])
      rw [hstep]
      exact ih hnd2.2 g hgt

theorem applyRows_char : ∀ (rs : List POSRow) (g : MerchantSummary),
    (applyRows g rs).mid = g.mid ∧
    (applyRows g rs).terminalCount
      = g.terminalCount + (dedupNew g.signatures (rs.map (fun r => r.signature))).length ∧
    (applyRows g rs).signatures
      = g.signatures ++ dedupNew g.signatures (rs.map (fun r => r.signature)) := by
  intro rs
  induction rs with
  | nil => intro g; simp [applyRows, dedupNew]
  | cons r rest ih =>
    intro g
    have hmid := (countRow_fields g r).1
    have hsig := (countRow_fields g r).2.1
    have hcount := (countRow_fields g r).2.2
    obtain ⟨ihm, ihc, ihs⟩ := ih (countRow g r)
    have happ : applyRows g (r :: rest) = applyRows (countRow g r) rest := rfl
    simp only [happ, List.map_cons]
    by_cases hs : r.signature ∈ g.signatures
    · rw [if_pos hs] at hsig hcount
      have hded : dedupNew g.signatures (r.signature :: rest.map (fun r => r.signature))
          = dedupNew g.signatures (rest.map (fun r => r.signature)) := by
        conv_lhs => rw [dedupNew]
        rw [if_pos hs]
      rw [hded]
      exact ⟨by rw [ihm, hmid], by rw [ihc, hcount, hsig], by rw [ihs, hsig]⟩
    · rw [if_neg hs] at hsig hcount
      have hded : dedupNew g.signatures (r.signature :: rest.map (fun r => r.signature))
          = r.signature ::
            dedupNew (g.signatures ++ [r.signature]) (rest.map (fun r => r.signature)) := by
        conv_lhs => rw [dedupNew]
        rw [if_neg hs]
      rw [hded]
      refine ⟨by rw [ihm, hmid], ?_, ?_⟩
      · rw [ihc, hcount, hsig]
        simp only [List.length_cons]
        omega
      · rw [ihs, hsig]
        simp

/-- The order-insensitive content of a summary: merchant id, terminal
count, and the derived amounts and status. -/
def summaryData (s : MerchantSummary) : String × Nat × ℚ × ℚ × ℚ × String :=
  (s.mid, s.terminalCount, s.expectedAmount, s.paidAmount, s.outstandingAmount, s.status)

theorem summaryData_finalize (payments : List PaymentRow) (u : ℚ)
    (g₁ g₂ : MerchantSummary) (hm : g₁.mid = g₂.mid)
    (hc : g₁.terminalCount = g₂.terminalCount) :
    summaryData (finalizeSummary payments u g₁) = summaryData (finalizeSummary payments u g₂) := by
  simp [finalizeSummary, summaryData, hm, hc]

/-! ## C2: order-insensitivity of the Merchant Aggregator -/

/-- C2 counterexample: two permutations of the same row set produce
different summary lists — the representative `merchantName` is taken from
whichever row of the merchant's group comes first. -/
theorem merchantSummaries_perm_counterexample :
    (([⟨"S1", "m1", "Alpha", "T1", "R", "D", "C"⟩,
        ⟨"S2", "m1", "Beta", "T2", "R", "D", "C"⟩] : List POSRow).Perm
      [⟨"S2", "m1", "Beta", "T2", "R", "D", "C"⟩,
        ⟨"S1", "m1", "Alpha", "T1", "R", "D", "C"⟩]) ∧
    merchantSummaries [⟨"S1", "m1", "Alpha", "T1", "R", "D", "C"⟩,
        ⟨"S2", "m1", "Beta", "T2", "R", "D", "C"⟩] [] 1
      ≠ merchantSummaries [⟨"S2", "m1", "Beta", "T2", "R", "D", "C"⟩,
        ⟨"S1", "m1", "Alpha", "T1", "R", "D", "C"⟩] [] 1 := by
  constructor
  · exact List.Perm.swap _ _ _
  · intro h
    have hb₁ : buildGroups [⟨"S1", "m1", "Alpha", "T1", "R", "D", "C"⟩,
        ⟨"S2", "m1", "Beta", "T2", "R", "D", "C"⟩]
        = [⟨"m1", "Alpha", 2, ["S1", "S2"], ["T1", "T2"], "R", "D", "C",
            0, 0, 0, "UNPAID"⟩] := by decide
    have hb₂ : buildGroups [⟨"S2", "m1", "Beta", "T2", "R", "D", "C"⟩,
        ⟨"S1", "m1", "Alpha", "T1", "R", "D", "C"⟩]
        = [⟨"m1", "Beta", 2, ["S2", "S1"], ["T2", "T1"], "R", "D", "C",
            0, 0, 0, "UNPAID"⟩] := by decide
    have h1 : finalizeSummary [] 1 (⟨"m1", "Alpha", 2, ["S1", "S2"], ["T1", "T2"],
          "R", "D", "C", 0, 0, 0, "UNPAID"⟩ : MerchantSummary)
        ∈ merchantSummaries [⟨"S1", "m1", "Alpha", "T1", "R", "D", "C"⟩,
          ⟨"S2", "m1", "Beta", "T2", "R", "D", "C"⟩] [] 1 := by
      unfold merchantSummaries
      rw [if_neg (by simp), List.mem_mergeSort, hb₁]
      simp
    rw [h] at h1
    unfold merchantSummaries at h1
    rw [if_neg (by simp), List.mem_mergeSort, hb₂] at h1
    rw [List.mem_map] at h1
    obtain ⟨g, hg, hge⟩ := h1
    rw [List.mem_singleton] at hg
    subst hg
    have hname := congrArg MerchantSummary.merchantName hge
    simp [finalizeSummary] at hname

/-- C2 (amended): under permutation of the input row list the Merchant
Aggregator produces, for every summary of the one output, a summary of
the other with the same merchant id, terminal count, expected, paid and
outstanding amounts, and status.  The representative fields
(merchantName, region, ...) and the output order are not invariant. -/
theorem merchantSummaries_perm (rows₁ rows₂ : List POSRow)
    (payments : List PaymentRow) (unitPrice : ℚ) (hp : rows₁.Perm rows₂) :
    ∀ s₁ ∈ merchantSummaries rows₁ payments unitPrice,
      ∃ s₂ ∈ merchantSummaries rows₂ payments unitPrice,
        summaryData s₂ = summaryData s₁ := by
  intro s₁ hs₁
  by_cases hr1 : rows₁ = []
  · subst hr1
    unfold merchantSummaries at hs₁
    rw [if_pos rfl] at hs₁
    simp at hs₁
  have hr2 : rows₂ ≠ [] := by
    intro h
    subst h
    exact hr1 hp.eq_nil
  unfold merchantSummaries at hs₁ ⊢
  rw [if_neg hr1] at hs₁
  rw [if_neg hr2]
  rw [List.mem_mergeSort] at hs₁
  obtain ⟨g₁, hg₁, hfin⟩ := List.mem_map.mp hs₁
  have hprops₁ := buildGroups_props rows₁ [] (by simp) (by simp)
  have hmne : g₁.mid ≠ "" := hprops₁.2 g₁ hg₁
  have hself : groupFor g₁.mid (buildGroups rows₁) = some g₁ :=
    groupFor_self (buildGroups rows₁) hprops₁.1 g₁ hg₁
  have hchar₁ := groupFor_foldl g₁.mid hmne rows₁ []
  have hnil : groupFor g₁.mid ([] : List MerchantSummary) = none := rfl
  rw [hnil] at hchar₁
  unfold buildGroups at hself
  rw [hself] at hchar₁
  have hperm : (rows₁.filter (fun r => r.mid == g₁.mid)).Perm
      (rows₂.filter (fun r => r.mid == g₁.mid)) := hp.filter _
  cases hfilt₁ : rows₁.filter (fun r => r.mid == g₁.mid) with
  | nil =>
    rw [hfilt₁] at hchar₁
    simp at hchar₁
  | cons r0 rs =>
    rw [hfilt₁] at hchar₁
    have hg₁eq : g₁ = applyRows (freshGroup r0) (r0 :: rs) := by
      injection hchar₁
    cases hfilt₂ : rows₂.filter (fun r => r.mid == g₁.mid) with
    | nil =>
      rw [hfilt₁, hfilt₂] at hperm
      have := hperm.length_eq
      simp at this
    | cons q0 qs =>
      have hchar₂ := groupFor_foldl g₁.mid hmne rows₂ []
      rw [hnil, hfilt₂] at hchar₂
      have hg₂mem : applyRows (freshGroup q0) (q0 :: qs) ∈ buildGroups rows₂ := by
        unfold buildGroups
        exact List.mem_of_find?_eq_some hchar₂
      have hq0 : q0.mid = g₁.mid := by
        have hq : q0 ∈ rows₂.filter (fun r => r.mid == g₁.mid) := by
          rw [hfilt₂]
          simp
        simpa using List.of_mem_filter hq
      have hg₂mid : (applyRows (freshGroup q0) (q0 :: qs)).mid = g₁.mid := by
        rw [(applyRows_char (q0 :: qs) (freshGroup q0)).1]
        exact hq0
      have hmapperm : ((q0 :: qs).map (fun r => r.signature)).Perm
          ((r0 :: rs).map (fun r => r.signature)) := by
        rw [← hfilt₁, ← hfilt₂]
        exact (hperm.symm).map _
      have hcnt : (applyRows (freshGroup q0) (q0 :: qs)).terminalCount = g₁.terminalCount := by
        rw [(applyRows_char (q0 :: qs) (freshGroup q0)).2.1, hg₁eq,
          (applyRows_char (r0 :: rs) (freshGroup r0)).2.1]
        show 0 + (dedupNew [] ((q0 :: qs).map (fun r => r.signature))).length
            = 0 + (dedupNew [] ((r0 :: rs).map (fun r => r.signature))).length
        rw [length_dedupNew_perm _ _ hmapperm]
      refine ⟨finalizeSummary payments unitPrice (applyRows (freshGroup q0) (q0 :: qs)),
        ?_, ?_⟩
      · rw [List.mem_mergeSort]
        exact List.mem_map_of_mem _ hg₂mem
      · rw [← hfin]
        exact summaryData_finalize payments unitPrice _ g₁ hg₂mid hcnt

/-- Witness for C2: a two-row, two-merchant list against its reversal. -/
theorem merchantSummaries_perm_witness :
    (([⟨"S1", "m1", "Alpha", "T1", "R", "D", "C"⟩,
        ⟨"S2", "m2", "Beta", "T2", "R", "D", "C"⟩] : List POSRow).Perm
      [⟨"S2", "m2", "Beta", "T2", "R", "D", "C"⟩,
        ⟨"S1", "m1", "Alpha", "T1", "R", "D", "C"⟩]) ∧
    ∀ s₁ ∈ merchantSummaries [⟨"S1", "m1", "Alpha", "T1", "R", "D", "C"⟩,
        ⟨"S2", "m2", "Beta", "T2", "R", "D", "C"⟩] [] 16825,
      ∃ s₂ ∈ merchantSummaries [⟨"S2", "m2", "Beta", "T2", "R", "D", "C"⟩,
        ⟨"S1", "m1", "Alpha", "T1", "R", "D", "C"⟩] [] 16825,
        summaryData s₂ = summaryData s₁ :=
  ⟨List.Perm.swap _ _ _,
    merchantSummaries_perm _ _ [] 16825 (List.Perm.swap _ _ _)⟩

/-! ## The Data Quality Analyzer -/

/-- One element of an issue's `affectedRows` array (heterogeneous in the
source: whole rows, `{signature, count}`, `{signature, mids}` or
`{mid, names}` objects). -/
inductive AffectedEntry where
  | row (r : POSRow)
  | sigCountEntry (signature : String) (count : Nat)
  | sigMids (signature : String) (mids : List String)
  | midNames (mid : String) (names : List String)
  deriving DecidableEq, Repr

/-- `DataQualityIssue` of `types.ts`; the presentation-only `description`
string is omitted. -/
structure Issue where
  type : String
  severity : String
  affectedRows : List AffectedEntry
  deriving DecidableEq, Repr

/-- `sigCounts[r.signature] = (sigCounts[r.signature] || 0) + 1`, on an
insertion-ordered association list. -/
def bumpSig (counts : List (String × Nat)) (k : String) : List (String × Nat) :=
  if counts.any (fun p => p.1 == k) then
    counts.map (fun p => if p.1 == k then (p.1, p.2 + 1) else p)
  else counts ++ [(k, 1)]

def sigCountsStep (acc : List (String × Nat)) (r : POSRow) : List (String × Nat) :=
  if r.signature = "" then acc else bumpSig acc r.signature

/-- The `sigCounts` record of check 3. -/
def sigCounts (rows : List POSRow) : List (String × Nat) :=
  rows.foldl sigCountsStep []

/-- `map[k].add(v)` on an insertion-ordered association list of
insertion-ordered sets. -/
def addSet (m : List (String × List String)) (k v : String) : List (String × List String) :=
  if m.any (fun p => p.1 == k) then
    m.map (fun p => if p.1 == k then (p.1, if v ∈ p.2 then p.2 else p.2 ++ [v]) else p)
  else m ++ [(k, [v])]

def sigToMidStep (acc : List (String × List String)) (r : POSRow) :
    List (String × List String) :=
  if r.signature ≠ "" ∧ r.mid ≠ "" then addSet acc r.signature r.mid else acc

/-- The `sigToMid` record of check 4. -/
def sigToMid (rows : List POSRow) : List (String × List String) :=
  rows.foldl sigToMidStep []

def midToNamesStep (acc : List (String × List String)) (r : POSRow) :
    List (String × List String) :=
  if r.mid ≠ "" ∧ r.merchantName ≠ "" then addSet acc r.mid r.merchantName else acc

/-- The `midToNames` record of check 5. -/
def midToNames (rows : List POSRow) : List (String × List String) :=
  rows.foldl midToNamesStep []

/-- `dataQualityIssues`: the five checks, pushed in order.  Note that the
global-duplicate check (3) pushes its issue with type
`duplicate_signature_conflict` — the source reuses that type string and
`duplicate_signature_global` exists nowhere in the code. -/
def dataQualityIssues (rows : List POSRow) : List Issue :=
  let missingSig := rows.filter (fun r => r.signature == "")
  let missingMid := rows.filter (fun r => r.mid == "")
  let globalDuplicates := (sigCounts rows).filter (fun p => 1 < p.2)
  let conflicts := (sigToMid rows).filter (fun p => 1 < p.2.length)
  let nameInc := (midToNames rows).filter (fun p => 1 < p.2.length)
  (if missingSig ≠ [] then
    [⟨"missing_signature", "high", missingSig.map AffectedEntry.row⟩] else []) ++
  (if missingMid ≠ [] then
    [⟨"missing_mid", "high", missingMid.map AffectedEntry.row⟩] else []) ++
  (if globalDuplicates ≠ [] then
    [⟨"duplicate_signature_conflict", "high",
      globalDuplicates.map (fun p => AffectedEntry.sigCountEntry p.1 p.2)⟩] else []) ++
  (if conflicts ≠ [] then
    [⟨"duplicate_signature_conflict", "high",
      conflicts.map (fun p => AffectedEntry.sigMids p.1 p.2)⟩] else []) ++
  (if nameInc ≠ [] then
    [⟨"duplicate_mid_inconsistent_name", "medium",
      nameInc.map (fun p => AffectedEntry.midNames p.1 p.2)⟩] else [])

/-! ### Association-list lookups -/

theorem lookup_any_false {β : Type} (l : List (String × β)) (k : String)
    (h : l.any (fun p => p.1 == k) = false) : l.lookup k = none := by
  rw [List.lookup_eq_none_iff]
  intro p hp
  have := List.any_eq_false.mp h p hp
  simp at this ⊢
  exact fun he => this he.symm

theorem lookup_any_true {β : Type} (l : List (String × β)) (k : String)
    (h : l.any (fun p => p.1 == k) = true) : ∃ v, l.lookup k = some v := by
  have : (l.lookup k).isSome := by
    rw [List.lookup_isSome_iff]
    obtain ⟨p, hp, hpk⟩ := List.any_eq_true.mp h
    exact ⟨p, hp, by simp at hpk ⊢; exact hpk.symm⟩
  exact Option.isSome_iff_exists.mp this

theorem lookup_some_mem {β : Type} {l : List (String × β)} {k : String} {v : β}
    (h : l.lookup k = some v) : (k, v) ∈ l := by
  obtain ⟨l₁, l₂, rfl, _⟩ := List.lookup_eq_some_iff.mp h
  simp

theorem lookup_map_bump (l : List (String × Nat)) (k : String) :
    (l.map (fun p => if p.1 == k then (p.1, p.2 + 1) else p)).lookup k
      = (l.lookup k).map (fun n => n + 1) := by
  induction l with
  | nil => rfl
  | cons a l ih =>
    obtain ⟨a1, a2⟩ := a
    rw [List.map_cons]
    by_cases hak : (a1 == k) = true
    · have ha : a1 = k := by simpa using hak
      have hka : (k == a1) = true := by simp [ha]
      rw [if_pos hak]
      simp only [List.lookup, hka]
      rfl
    · have hka : (k == a1) = false := by
        apply beq_false_of_ne
        intro he
        exact hak (by simp [he])
      rw [if_neg hak]
      simp only [List.lookup, hka]
      exact ih

theorem lookup_map_bump_other (l : List (String × Nat)) (k k' : String) (h : k' ≠ k) :
    (l.map (fun p => if p.1 == k then (p.1, p.2 + 1) else p)).lookup k' = l.lookup k' := by
  induction l with
  | nil => rfl
  | cons a l ih =>
    obtain ⟨a1, a2⟩ := a
    rw [List.map_cons]
    by_cases hak : (a1 == k) = true
    · have ha : a1 = k := by simpa using hak
      have hka : (k' == a1) = false := by
        rw [ha]
        exact beq_false_of_ne h
      rw [if_pos hak]
      simp only [List.lookup, hka]
      exact ih
    · rw [if_neg hak]
      by_cases hk2 : (k' == a1) = true
      · simp only [List.lookup, hk2]
      · have hk2f : (k' == a1) = false := Bool.eq_false_iff.mpr hk2
        simp only [List.lookup, hk2f]
        exact ih

theorem bumpSig_lookup_self (l : List (String × Nat)) (k : String) :
    (bumpSig l k).lookup k = some ((l.lookup k).getD 0 + 1) := by
  unfold bumpSig
  by_cases hany : l.any (fun p => p.1 == k) = true
  · rw [if_pos hany, lookup_map_bump]
    obtain ⟨v, hv⟩ := lookup_any_true l k hany
    simp [hv]
  · have hany2 : l.any (fun p => p.1 == k) = false := Bool.eq_false_iff.mpr hany
    rw [if_neg (by simp [hany2]), List.lookup_append, lookup_any_false l k hany2]
    simp [List.lookup]

theorem bumpSig_lookup_other (l : List (String × Nat)) (k k' : String) (h : k' ≠ k) :
    (bumpSig l k).lookup k' = l.lookup k' := by
  unfold bumpSig
  by_cases hany : l.any (fun p => p.1 == k) = true
  · rw [if_pos hany]
    exact lookup_map_bump_other l k k' h
  · have hany2 : l.any (fun p => p.1 == k) = false := Bool.eq_false_iff.mpr hany
    rw [if_neg (by simp [hany2]), List.lookup_append]
    have : List.lookup k' [(k, 1)] = none := by
      simp [List.lookup, beq_false_of_ne h]
    rw [this]
    simp

theorem lookup_map_addSet (l : List (String × List String)) (k v : String) :
    (l.map (fun p => if p.1 == k then (p.1, if v ∈ p.2 then p.2 else p.2 ++ [v]) else p)).lookup k
      = (l.lookup k).map (fun vs => if v ∈ vs then vs else vs ++ [v]) := by
  induction l with
  | nil => rfl
  | cons a l ih =>
    obtain ⟨a1, a2⟩ := a
    rw [List.map_cons]
    by_cases hak : (a1 == k) = true
    · have ha : a1 = k := by simpa using hak
      have hka : (k == a1) = true := by simp [ha]
      rw [if_pos hak]
      simp only [List.lookup, hka]
      rfl
    · have hka : (k == a1) = false := by
        apply beq_false_of_ne
        intro he
        exact hak (by simp [he])
      rw [if_neg hak]
      simp only [List.lookup, hka]
      exact ih

theorem lookup_map_addSet_other (l : List (String × List String)) (k k' v : String)
    (h : k' ≠ k) :
    (l.map (fun p =>
      if p.1 == k then (p.1, if v ∈ p.2 then p.2 else p.2 ++ [v]) else p)).lookup k'
      = l.lookup k' := by
  induction l with
  | nil => rfl
  | cons a l ih =>
    obtain ⟨a1, a2⟩ := a
    rw [List.map_cons]
    by_cases hak : (a1 == k) = true
    · have ha : a1 = k := by simpa using hak
      have hka : (k' == a1) = false := by
        rw [ha]
        exact beq_false_of_ne h
      rw [if_pos hak]
      simp only [List.lookup, hka]
      exact ih
    · rw [if_neg hak]
      by_cases hk2 : (k' == a1) = true
      · simp only [List.lookup, hk2]
      · have hk2f : (k' == a1) = false := Bool.eq_false_iff.mpr hk2
        simp only [List.lookup, hk2f]
        exact ih

theorem addSet_lookup_self (m : List (String × List String)) (k v : String) :
    (addSet m k v).lookup k = some (match m.lookup k with
      | some vs => if v ∈ vs then vs else vs ++ [v]
      | none => [v]) := by
  unfold addSet
  by_cases hany : m.any (fun p => p.1 == k) = true
  · rw [if_pos hany, lookup_map_addSet]
    obtain ⟨vs, hvs⟩ := lookup_any_true m k hany
    simp [hvs]
  · have hany2 : m.any (fun p => p.1 == k) = false := Bool.eq_false_iff.mpr hany
    rw [if_neg (by simp [hany2]), List.lookup_append, lookup_any_false m k hany2]
    simp [List.lookup, lookup_any_false m k hany2]

theorem addSet_lookup_other (m : List (String × List String)) (k k' v : String)
    (h : k' ≠ k) : (addSet m k v).lookup k' = m.lookup k' := by
  unfold addSet
  by_cases hany : m.any (fun p => p.1 == k) = true
  · rw [if_pos hany]
    exact lookup_map_addSet_other m k k' v h
  · have hany2 : m.any (fun p => p.1 == k) = false := Bool.eq_false_iff.mpr hany
    rw [if_neg (by simp [hany2]), List.lookup_append]
    have : List.lookup k' [(k, [v])] = none := by
      simp [List.lookup, beq_false_of_ne h]
    rw [this]
    simp

/-! ### Characterising the analyzer's tallies -/

theorem sigCounts_lookup (k : String) (hk : k ≠ "") :
    ∀ (rows : List POSRow) (acc : List (String × Nat)),
    ((rows.foldl sigCountsStep acc).lookup k) =
      match acc.lookup k with
      | some n => some (n + (rows.filter (fun r => r.signature == k)).length)
      | none =>
        match (rows.filter (fun r => r.signature == k)).length with
        | 0 => none
        | m + 1 => some (m + 1) := by
  intro rows
  induction rows with
  | nil =>
    intro acc
    cases h : acc.lookup k <;> simp [h]
  | cons r rest ih =>
    intro acc
    show ((rest.foldl sigCountsStep (sigCountsStep acc r)).lookup k) = _
    by_cases h0 : r.signature = ""
    · have hstep : sigCountsStep acc r = acc := by rw [sigCountsStep, if_pos h0]
      have hf : (r :: rest).filter (fun r => r.signature == k)
          = rest.filter (fun r => r.signature == k) :=
        List.filter_cons_of_neg (by simp [h0]; exact fun he => hk he.symm)
      rw [hstep, hf]
      exact ih acc
    · by_cases hrk : r.signature = k
      · have hstep : sigCountsStep acc r = bumpSig acc k := by
          rw [sigCountsStep, if_neg h0, hrk]
        have hf : (r :: rest).filter (fun r => r.signature == k)
            = r :: rest.filter (fun r => r.signature == k) :=
          List.filter_cons_of_pos (by simp [hrk])
        rw [hstep, hf, ih (bumpSig acc k), bumpSig_lookup_self]
        cases hacc : acc.lookup k with
        | some n =>
          simp only [Option.getD_some, List.length_cons, Option.some.injEq]
          omega
        | none =>
          simp only [Option.getD_none, List.length_cons, Option.some.injEq]
          omega
      · have hstep : sigCountsStep acc r = bumpSig acc r.signature := by
          rw [sigCountsStep, if_neg h0]
        have hf : (r :: rest).filter (fun r => r.signature == k)
            = rest.filter (fun r => r.signature == k) :=
          List.filter_cons_of_neg (by simp; exact hrk)
        rw [hstep, hf, ih (bumpSig acc r.signature),
          bumpSig_lookup_other acc r.signature k (fun he => hrk he.symm)]

theorem addSet_lookup_self_some (m : List (String × List String)) (k v : String)
    (vs : List String) (h : m.lookup k = some vs) :
    (addSet m k v).lookup k = some (if v ∈ vs then vs else vs ++ [v]) := by
  rw [addSet_lookup_self, h]

theorem addSet_lookup_self_none (m : List (String × List String)) (k v : String)
    (h : m.lookup k = none) : (addSet m k v).lookup k = some [v] := by
  rw [addSet_lookup_self, h]

theorem sigToMid_lookup_some (k : String) (hk : k ≠ "") :
    ∀ (rows : List POSRow) (acc : List (String × List String)) (vs : List String),
    acc.lookup k = some vs →
    ((rows.foldl sigToMidStep acc).lookup k) = some (vs ++ dedupNew vs
      ((rows.filter (fun r => r.signature == k && !(r.mid == ""))).map (fun r => r.mid))) := by
  intro rows
  induction rows with
  | nil =>
    intro acc vs hacc
    rw [List.foldl_nil, hacc]
    simp [dedupNew]
  | cons r rest ih =>
    intro acc vs hacc
    show ((rest.foldl sigToMidStep (sigToMidStep acc r)).lookup k) = _
    by_cases hc : r.signature ≠ "" ∧ r.mid ≠ ""
    · obtain ⟨hsg, hmd⟩ := hc
      by_cases hrk : r.signature = k
      · have hstep : sigToMidStep acc r = addSet acc k r.mid := by
          rw [sigToMidStep, if_pos ⟨hsg, hmd⟩, hrk]
        have hf : (r :: rest).filter (fun r => r.signature == k && !(r.mid == ""))
            = r :: rest.filter (fun r => r.signature == k && !(r.mid == "")) :=
          List.filter_cons_of_pos (by simp [hrk, hmd])
        rw [hstep, hf, List.map_cons]
        have hacc2 := addSet_lookup_self_some acc k r.mid vs hacc
        by_cases hv : r.mid ∈ vs
        · rw [if_pos hv] at hacc2
          rw [ih (addSet acc k r.mid) vs hacc2]
          have hded : dedupNew vs (r.mid ::
              (rest.filter (fun r => r.signature == k && !(r.mid == ""))).map
                (fun r => r.mid)) = dedupNew vs
              ((rest.filter (fun r => r.signature == k && !(r.mid == ""))).map
                (fun r => r.mid)) := by
            conv_lhs => rw [dedupNew]
            rw [if_pos hv]
          rw [hded]
        · rw [if_neg hv] at hacc2
          rw [ih (addSet acc k r.mid) (vs ++ [r.mid]) hacc2]
          have hded : dedupNew vs (r.mid ::
              (rest.filter (fun r => r.signature == k && !(r.mid == ""))).map
                (fun r => r.mid)) = r.mid :: dedupNew (vs ++ [r.mid])
              ((rest.filter (fun r => r.signature == k && !(r.mid == ""))).map
                (fun r => r.mid)) := by
            conv_lhs => rw [dedupNew]
            rw [if_neg hv]
          rw [hded]
          simp
      · have hstep : sigToMidStep acc r = addSet acc r.signature r.mid := by
          rw [sigToMidStep, if_pos ⟨hsg, hmd⟩]
        have hf : (r :: rest).filter (fun r => r.signature == k && !(r.mid == ""))
            = rest.filter (fun r => r.signature == k && !(r.mid == "")) :=
          List.filter_cons_of_neg (by simp [hrk])
        rw [hstep, hf]
        apply ih
        rw [addSet_lookup_other acc r.signature k r.mid (fun he => hrk he.symm)]
        exact hacc
    · have hstep : sigToMidStep acc r = acc := by rw [sigToMidStep, if_neg hc]
      have hcond : (r.signature == k && !(r.mid == "")) = false := by
        rcases not_and_or.mp hc with h1 | h2
        · push_neg at h1
          rw [h1]
          simp [beq_false_of_ne (fun he => hk he.symm)]
        · push_neg at h2
          rw [h2]
          simp
      have hf : (r :: rest).filter (fun r => r.signature == k && !(r.mid == ""))
          = rest.filter (fun r => r.signature == k && !(r.mid == "")) :=
        List.filter_cons_of_neg (by simp [hcond])
      rw [hstep, hf]
      exact ih acc vs hacc

theorem sigToMid_lookup_none (k : String) (hk : k ≠ "") :
    ∀ (rows : List POSRow) (acc : List (String × List String)),
    acc.lookup k = none →
    ((rows.foldl sigToMidStep acc).lookup k) =
      (if ((rows.filter (fun r => r.signature == k && !(r.mid == ""))).map
          (fun r => r.mid)) = [] then none
       else some (dedupNew []
        ((rows.filter (fun r => r.signature == k && !(r.mid == ""))).map (fun r => r.mid)))) := by
  intro rows
  induction rows with
  | nil =>
    intro acc hacc
    rw [List.foldl_nil, hacc]
    simp
  | cons r rest ih =>
    intro acc hacc
    show ((rest.foldl sigToMidStep (sigToMidStep acc r)).lookup k) = _
    by_cases hc : r.signature ≠ "" ∧ r.mid ≠ ""
    · obtain ⟨hsg, hmd⟩ := hc
      by_cases hrk : r.signature = k
      · have hstep : sigToMidStep acc r = addSet acc k r.mid := by
          rw [sigToMidStep, if_pos ⟨hsg, hmd⟩, hrk]
        have hf : (r :: rest).filter (fun r => r.signature == k && !(r.mid == ""))
            = r :: rest.filter (fun r => r.signature == k && !(r.mid == "")) :=
          List.filter_cons_of_pos (by simp [hrk, hmd])
        rw [hstep, hf, List.map_cons]
        have hacc2 := addSet_lookup_self_none acc k r.mid hacc
        rw [sigToMid_lookup_some k hk rest (addSet acc k r.mid) [r.mid] hacc2]
        rw [if_neg (by simp)]
        have hded : dedupNew [] (r.mid ::
            (rest.filter (fun r => r.signature == k && !(r.mid == ""))).map
              (fun r => r.mid)) = r.mid :: dedupNew [r.mid]
            ((rest.filter (fun r => r.signature == k && !(r.mid == ""))).map
              (fun r => r.mid)) := by
          conv_lhs => rw [dedupNew]
          rw [if_neg (by simp), List.nil_append]
        rw [hded]
        simp
      · have hstep : sigToMidStep acc r = addSet acc r.signature r.mid := by
          rw [sigToMidStep, if_pos ⟨hsg, hmd⟩]
        have hf : (r :: rest).filter (fun r => r.signature == k && !(r.mid == ""))
            = rest.filter (fun r => r.signature == k && !(r.mid == "")) :=
          List.filter_cons_of_neg (by simp [hrk])
        rw [hstep, hf]
        apply ih
        rw [addSet_lookup_other acc r.signature k r.mid (fun he => hrk he.symm)]
        exact hacc
    · have hstep : sigToMidStep acc r = acc := by rw [sigToMidStep, if_neg hc]
      have hcond : (r.signature == k && !(r.mid == "")) = false := by
        rcases not_and_or.mp hc with h1 | h2
        · push_neg at h1
          rw [h1]
          simp [beq_false_of_ne (fun he => hk he.symm)]
        · push_neg at h2
          rw [h2]
          simp
      have hf : (r :: rest).filter (fun r => r.signature == k && !(r.mid == ""))
          = rest.filter (fun r => r.signature == k && !(r.mid == "")) :=
        List.filter_cons_of_neg (by simp [hcond])
      rw [hstep, hf]
      exact ih acc hacc

/-! ## C7: duplicate-serial reporting -/

/-- C7 counterexample: at the claim's own premise (a serial in three rows
under two distinct merchant ids) the analyzer reports no issue of kind
`duplicate_signature_global` — the source pushes the global-duplicate
issue with type `duplicate_signature_conflict` and the `..._global` kind
exists nowhere in the code. -/
theorem dup_global_kind_counterexample :
    (([⟨"S", "1", "N1", "T1", "R", "D", "C"⟩, ⟨"S", "1", "N1", "T2", "R", "D", "C"⟩,
        ⟨"S", "2", "N2", "T3", "R", "D", "C"⟩] : List POSRow).filter
      (fun r => r.signature == "S")).length = 3 ∧
    ((([⟨"S", "1", "N1", "T1", "R", "D", "C"⟩, ⟨"S", "1", "N1", "T2", "R", "D", "C"⟩,
        ⟨"S", "2", "N2", "T3", "R", "D", "C"⟩] : List POSRow).filter
      (fun r => r.signature == "S" && !(r.mid == ""))).map
        (fun r => r.mid)).toFinset.card = 2 ∧
    ∀ i ∈ dataQualityIssues [⟨"S", "1", "N1", "T1", "R", "D", "C"⟩,
        ⟨"S", "1", "N1", "T2", "R", "D", "C"⟩, ⟨"S", "2", "N2", "T3", "R", "D", "C"⟩],
      i.type ≠ "duplicate_signature_global" := by
  decide

/-- C7 (amended): for every row list in which a non-empty raw serial
occurs in 3 rows spanning 2 distinct (normalized) merchant ids, the
analyzer reports two issues, both of kind `duplicate_signature_conflict`:
one carrying `{serial, count = 3}` and one carrying that serial with its
2-element distinct-mid set. -/
theorem dup_serial_both_issues (rows : List POSRow) (serial : String) (hs : serial ≠ "")
    (h3 : (rows.filter (fun r => r.signature == serial)).length = 3)
    (hm : ((rows.filter (fun r => r.signature == serial && !(r.mid == ""))).map
        (fun r => r.mid)).toFinset.card = 2) :
    (∃ i ∈ dataQualityIssues rows, i.type = "duplicate_signature_conflict" ∧
      AffectedEntry.sigCountEntry serial 3 ∈ i.affectedRows) ∧
    (∃ i ∈ dataQualityIssues rows, i.type = "duplicate_signature_conflict" ∧
      ∃ mids, AffectedEntry.sigMids serial mids ∈ i.affectedRows ∧ mids.length = 2) := by
  have hcnt : (sigCounts rows).lookup serial = some 3 := by
    have hchar := sigCounts_lookup serial hs rows []
    rw [h3] at hchar
    simpa using hchar
  have hmemc : (serial, 3) ∈ sigCounts rows := lookup_some_mem hcnt
  have hfmemc : (serial, 3) ∈ (sigCounts rows).filter (fun p => 1 < p.2) := by
    rw [List.mem_filter]
    exact ⟨hmemc, by simp⟩
  have hgdne : (sigCounts rows).filter (fun p => 1 < p.2) ≠ [] :=
    List.ne_nil_of_mem hfmemc
  have hmsne : (rows.filter (fun r => r.signature == serial && !(r.mid == ""))).map
      (fun r => r.mid) ≠ [] := by
    intro h
    rw [h] at hm
    simp at hm
  have hmschar := sigToMid_lookup_none serial hs rows [] rfl
  rw [if_neg hmsne] at hmschar
  constructor
  · refine ⟨⟨"duplicate_signature_conflict", "high",
      ((sigCounts rows).filter (fun p => 1 < p.2)).map
        (fun p => AffectedEntry.sigCountEntry p.1 p.2)⟩, ?_, rfl, ?_⟩
    · simp only [dataQualityIssues]
      apply List.mem_append_left
      apply List.mem_append_left
      apply List.mem_append_right
      rw [if_pos hgdne]
      simp
    · exact List.mem_map_of_mem _ hfmemc
  · have hlook : (sigToMid rows).lookup serial = some (dedupNew []
        ((rows.filter (fun r => r.signature == serial && !(r.mid == ""))).map
          (fun r => r.mid))) := hmschar
    have hlen : (dedupNew []
        ((rows.filter (fun r => r.signature == serial && !(r.mid == ""))).map
          (fun r => r.mid))).length = 2 := by
      rw [length_dedupNew]
      exact hm
    have hmemm := lookup_some_mem hlook
    have hfmemm : (serial, dedupNew []
        ((rows.filter (fun r => r.signature == serial && !(r.mid == ""))).map
          (fun r => r.mid)))
        ∈ (sigToMid rows).filter (fun p => 1 < p.2.length) := by
      rw [List.mem_filter]
      exact ⟨hmemm, by simp [hlen]⟩
    have hcfne : (sigToMid rows).filter (fun p => 1 < p.2.length) ≠ [] :=
      List.ne_nil_of_mem hfmemm
    refine ⟨⟨"duplicate_signature_conflict", "high",
      ((sigToMid rows).filter (fun p => 1 < p.2.length)).map
        (fun p => AffectedEntry.sigMids p.1 p.2)⟩, ?_, rfl,
      dedupNew [] ((rows.filter (fun r => r.signature == serial && !(r.mid == ""))).map
        (fun r => r.mid)), ?_, hlen⟩
    · simp only [dataQualityIssues]
      apply List.mem_append_left
      apply List.mem_append_right
      rw [if_pos hcfne]
      simp
    · exact List.mem_map_of_mem _ hfmemm

/-- Witness for C7: the three-row, two-merchant list of the spec's
example. -/
theorem dup_serial_both_issues_witness :
    ((([⟨"S", "1", "N1", "T1", "R", "D", "C"⟩, ⟨"S", "1", "N1", "T2", "R", "D", "C"⟩,
        ⟨"S", "2", "N2", "T3", "R", "D", "C"⟩] : List POSRow).filter
      (fun r => r.signature == "S")).length = 3) ∧
    ((∃ i ∈ dataQualityIssues [⟨"S", "1", "N1", "T1", "R", "D", "C"⟩,
        ⟨"S", "1", "N1", "T2", "R", "D", "C"⟩, ⟨"S", "2", "N2", "T3", "R", "D", "C"⟩],
      i.type = "duplicate_signature_conflict" ∧
        AffectedEntry.sigCountEntry "S" 3 ∈ i.affectedRows) ∧
    (∃ i ∈ dataQualityIssues [⟨"S", "1", "N1", "T1", "R", "D", "C"⟩,
        ⟨"S", "1", "N1", "T2", "R", "D", "C"⟩, ⟨"S", "2", "N2", "T3", "R", "D", "C"⟩],
      i.type = "duplicate_signature_conflict" ∧
        ∃ mids, AffectedEntry.sigMids "S" mids ∈ i.affectedRows ∧ mids.length = 2)) :=
  ⟨by decide,
    dup_serial_both_issues [⟨"S", "1", "N1", "T1", "R", "D", "C"⟩,
        ⟨"S", "1", "N1", "T2", "R", "D", "C"⟩, ⟨"S", "2", "N2", "T3", "R", "D", "C"⟩]
      "S" (by decide) (by decide) (by decide)⟩

end BobPos
